import Mathlib

/-!
Verification development for the MOSDAC knowledge-graph / query-processing core.

The definitions below are a shallow embedding of
`src/knowledge_graph/graph_manager.py` (class `GraphManager`) and
`src/nlp/query_processor.py` (class `QueryProcessor`):

* Python strings are Lean `String`s; the string operations the code uses
  (`str.lower`, substring containment via `in`, `str.split()`) are modelled
  over `String.toList` so that they reduce in the kernel.
* Python floats are modelled as `ℚ` (scores, confidences) except for the
  cosine-similarity subroutine, whose square roots force `ℝ`.
* The NetworkX multigraph is a list of `(node id, attribute record)` pairs in
  insertion order plus a list of edges; `uuid.uuid4()` is modelled as a fresh
  natural-number counter (uuids are opaque unique keys).
* External dependencies (the sentence-transformer encoder, the spaCy tagger,
  the regex engine) are parameters: an encoder is
  `Option (String → Option (List ℚ))` (`none` = model failed to load, inner
  `none` = `encode` raised), the tagger output is a data record, and the
  per-entity-kind regex match lists are a function argument.
* Python `try/except` is modelled with `Except`/`Option` results.
-/

/-! ### String primitives (Python `in`, `lower`, `split`) -/

/-- Python substring containment `needle in hay` on char lists. -/
def listContains (hay needle : List Char) : Bool :=
  hay.tails.any (fun t => needle.isPrefixOf t)

/-- Python `str.lower()` (ASCII model). -/
def lowerStr (s : String) : String := String.mk (s.toList.map Char.toLower)

/-- Python `needle in hay` for strings. -/
def strContains (hay needle : String) : Bool := listContains hay.toList needle.toList

/-- Whitespace test used for Python `\s` and `str.split()`. -/
def isWsC (c : Char) : Bool := c.isWhitespace

/-- Helper for `pyWords`: accumulates the current word (reversed). -/
def wordsAux : List Char → List Char → List String
  | cur, [] => if cur = [] then [] else [String.mk cur.reverse]
  | cur, c :: cs =>
    if isWsC c then
      (if cur = [] then wordsAux [] cs else String.mk cur.reverse :: wordsAux [] cs)
    else wordsAux (c :: cur) cs

/-- Python `str.split()` with no argument: split on whitespace runs, no empties. -/
def pyWords (s : String) : List String := wordsAux [] s.toList

/-- Python word character test for the regex class `\w` (ASCII model). -/
def isWordC (c : Char) : Bool := c.isAlphanum || c = '_'

/-- Model of `re.sub(r'[^\w\s\-\.]', ' ', q)`: every character outside the
class is replaced by one space. -/
def stripPunct (l : List Char) : List Char :=
  l.map (fun c => if isWordC c || isWsC c || c = '-' || c = '.' then c else ' ')

/-- Helper for `collapseWs`: the flag records whether the previous character
was whitespace (a run emits a single space). -/
def collapseWsAux : Bool → List Char → List Char
  | _, [] => []
  | prevWs, c :: cs =>
    if isWsC c then
      (if prevWs then collapseWsAux true cs else ' ' :: collapseWsAux true cs)
    else c :: collapseWsAux false cs

/-- Model of `re.sub(r'\s+', ' ', q).strip()`: whitespace runs become one
space, then leading/trailing spaces are removed. -/
def collapseWs (l : List Char) : List Char :=
  (((collapseWsAux false l).dropWhile (fun c => c = ' ')).reverse.dropWhile
    (fun c => c = ' ')).reverse

/-- `QueryProcessor._preprocess_query`: lowercase, collapse whitespace, strip
punctuation except hyphen and period, collapse whitespace again. -/
def preprocess (q : String) : String :=
  String.mk (collapseWs (stripPunct (collapseWs (lowerStr q).toList)))

/-- Model of CPython `list(set(l))` for strings: the distinct elements of
`l`.  CPython enumerates a set in hash order; this model fixes one admissible
enumeration, the order of first occurrence. -/
def pySetList (l : List String) : List String :=
  l.foldl (fun acc s => if s ∈ acc then acc else acc ++ [s]) []

/-! ### Graph data model (`GraphManager`, local NetworkX graph) -/

/-- Attribute record of a NetworkX node.  Each field models one attribute
key; `none` means the key is absent.  The `embedding` field is doubly
optional: the outer layer is key presence, the inner layer is the stored
value, which `_get_embedding` may set to Python `None`. -/
structure Attrs where
  type : Option String := none
  url : Option String := none
  content_type : Option String := none
  title : Option String := none
  text_content : Option String := none
  metadata : Option (List (String × String)) := none
  text : Option String := none
  source_url : Option String := none
  embedding : Option (Option (List ℚ)) := none
  data : Option String := none
  file_type : Option String := none
  code : Option String := none
deriving DecidableEq

/-- An edge of the local multigraph, with its `type` attribute. -/
structure GEdge where
  src : ℕ
  tgt : ℕ
  etype : String
deriving DecidableEq

/-- The local NetworkX multigraph: nodes as `(id, attributes)` in insertion
order (NetworkX stores nodes in an insertion-ordered dict), plus edges. -/
structure Graph where
  nodes : List (ℕ × Attrs) := []
  edges : List GEdge := []
deriving DecidableEq

/-- Node ids of a graph in insertion order. -/
def nodeIds (g : Graph) : List ℕ := g.nodes.map Prod.fst

/-- NetworkX attribute update: keys passed in `new` override, absent keys
keep the old value. -/
def mergeAttrs (old new : Attrs) : Attrs where
  type := new.type.orElse (fun _ => old.type)
  url := new.url.orElse (fun _ => old.url)
  content_type := new.content_type.orElse (fun _ => old.content_type)
  title := new.title.orElse (fun _ => old.title)
  text_content := new.text_content.orElse (fun _ => old.text_content)
  metadata := new.metadata.orElse (fun _ => old.metadata)
  text := new.text.orElse (fun _ => old.text)
  source_url := new.source_url.orElse (fun _ => old.source_url)
  embedding := new.embedding.orElse (fun _ => old.embedding)
  data := new.data.orElse (fun _ => old.data)
  file_type := new.file_type.orElse (fun _ => old.file_type)
  code := new.code.orElse (fun _ => old.code)

/-- `nx.MultiDiGraph.add_node`: a new id is appended (insertion order), an
existing id has its attributes updated in place. -/
def addNodeG (g : Graph) (id : ℕ) (a : Attrs) : Graph :=
  if id ∈ nodeIds g then
    { g with nodes := g.nodes.map (fun p => if p.1 = id then (p.1, mergeAttrs p.2 a) else p) }
  else
    { g with nodes := g.nodes ++ [(id, a)] }

/-- `nx.MultiDiGraph.add_edge` silently creates missing endpoints with an
empty attribute record. -/
def ensureNode (g : Graph) (id : ℕ) : Graph :=
  if id ∈ nodeIds g then g else { g with nodes := g.nodes ++ [(id, {})] }

/-- `nx.MultiDiGraph.add_edge`: a multigraph always gains a new edge. -/
def addEdgeG (g : Graph) (u v : ℕ) (t : String) : Graph :=
  let g1 := ensureNode g u
  let g2 := ensureNode g1 v
  { g2 with edges := g2.edges ++ [⟨u, v, t⟩] }

/-! ### Ingestion (`add_content` and the `_process_*_content` helpers) -/

/-- One entry of a `faqs` list (fields read with `.get(..., '')`). -/
structure FaqItem where
  question : String
  answer : String
  source_url : String
deriving DecidableEq

/-- One entry of a `download_links` list. -/
structure LinkItem where
  url : String
  text : String
  file_type : String
deriving DecidableEq

/-- An ingestion record as consumed by `_add_to_local_graph`.  Fields the
code reads with a `.get` default are stored with the default applied;
`content_type` keeps `Option` because the dispatch compares the raw
`.get('content_type')`. -/
structure Payload where
  url : String := ""
  content_type : Option String := none
  metadata : List (String × String) := []
  text_content : String := ""
  faqs : List FaqItem := []
  specifications : Option String := none
  download_links : List LinkItem := []
  api_documentation : Option String := none
  api_code_examples : Option String := none
deriving DecidableEq

/-- An embedding provider: `none` models a `SentenceTransformer` that failed
to load; the function returns `none` when `encode` raises. -/
abbrev Provider := Option (String → Option (List ℚ))

/-- `GraphManager._get_embedding`: `None` when there is no model or the text
is empty (falsy); otherwise the encoder's result, `None` if it raised. -/
def getEmbedding (provider : Provider) (text : String) : Option (List ℚ) :=
  match provider with
  | none => none
  | some f => if text = "" then none else f text

/-- Attribute record of a Question node built by `_process_faq_content`. -/
def questionAttrs (provider : Provider) (f : FaqItem) : Attrs :=
  { type := some "question", text := some f.question, source_url := some f.source_url,
    embedding := some (getEmbedding provider f.question) }

/-- Attribute record of an Answer node built by `_process_faq_content`. -/
def answerAttrs (provider : Provider) (f : FaqItem) : Attrs :=
  { type := some "answer", text := some f.answer, source_url := some f.source_url,
    embedding := some (getEmbedding provider f.answer) }

/-- `GraphManager._process_faq_content`: for each FAQ pair, fresh Question
and Answer nodes, a `contains` edge from the content node to the question
and a `has_answer` edge from the question to the answer.  The counter
models the two `uuid.uuid4()` calls per pair. -/
def processFaqContent (provider : Provider) (cid : ℕ) :
    List FaqItem → Graph → ℕ → Graph × ℕ
  | [], g, c => (g, c)
  | f :: rest, g, c =>
    let g1 := addNodeG g c (questionAttrs provider f)
    let g2 := addNodeG g1 (c + 1) (answerAttrs provider f)
    let g3 := addEdgeG g2 cid c "contains"
    let g4 := addEdgeG g3 c (c + 1) "has_answer"
    processFaqContent provider cid rest g4 (c + 2)

/-- Attribute record of a DownloadLink node. -/
def linkAttrs (l : LinkItem) : Attrs :=
  { type := some "download_link", url := some l.url, text := some l.text,
    file_type := some l.file_type }

/-- Download-link loop of `_process_data_content`. -/
def processLinks (cid : ℕ) : List LinkItem → Graph → ℕ → Graph × ℕ
  | [], g, c => (g, c)
  | l :: rest, g, c =>
    let g1 := addNodeG g c (linkAttrs l)
    let g2 := addEdgeG g1 cid c "has_download"
    processLinks cid rest g2 (c + 1)

/-- Attribute record of a Specification node. -/
def specAttrs (s : String) : Attrs := { type := some "specifications", data := some s }

/-- `GraphManager._process_data_content`. -/
def processDataContent (cid : ℕ) (p : Payload) (g : Graph) (c : ℕ) : Graph × ℕ :=
  match p.specifications with
  | some s =>
    let g1 := addNodeG g c (specAttrs s)
    let g2 := addEdgeG g1 cid c "has_specifications"
    processLinks cid p.download_links g2 (c + 1)
  | none => processLinks cid p.download_links g c

/-- Attribute record of an ApiDoc node. -/
def apiDocAttrs (d : String) : Attrs := { type := some "api_documentation", text := some d }

/-- Attribute record of a CodeExample node. -/
def codeAttrs (e : String) : Attrs := { type := some "code_example", code := some e }

/-- `GraphManager._process_api_content`. -/
def processApiContent (cid : ℕ) (p : Payload) (g : Graph) (c : ℕ) : Graph × ℕ :=
  let s1 : Graph × ℕ :=
    match p.api_documentation with
    | some d =>
      let g1 := addNodeG g c (apiDocAttrs d)
      (addEdgeG g1 cid c "has_documentation", c + 1)
    | none => (g, c)
  match p.api_code_examples with
  | some e =>
    let g1 := addNodeG s1.1 s1.2 (codeAttrs e)
    (addEdgeG g1 cid s1.2 "has_example", s1.2 + 1)
  | none => s1

/-- Attribute record of the Content node built by `_add_to_local_graph`. -/
def contentAttrs (p : Payload) : Attrs :=
  { type := some "content", url := some p.url,
    content_type := some (p.content_type.getD "unknown"),
    title := some ((p.metadata.lookup "title").getD ""),
    text_content := some p.text_content, metadata := some p.metadata }

/-- `GraphManager._add_to_local_graph`: create the Content node (with a
fresh id when none is supplied) and dispatch on the content type.  Returns
the updated graph, the updated uuid counter and the content node id. -/
def addToLocalGraph (provider : Provider) (p : Payload) (nodeId : Option ℕ)
    (g : Graph) (c : ℕ) : Graph × ℕ × ℕ :=
  let idc : ℕ × ℕ := match nodeId with
    | some i => (i, c)
    | none => (c, c + 1)
  let g1 := addNodeG g idc.1 (contentAttrs p)
  if p.content_type = some "faq" then
    let r := processFaqContent provider idc.1 p.faqs g1 idc.2
    (r.1, r.2, idc.1)
  else if p.content_type = some "data" then
    let r := processDataContent idc.1 p g1 idc.2
    (r.1, r.2, idc.1)
  else if p.content_type = some "api" then
    let r := processApiContent idc.1 p g1 idc.2
    (r.1, r.2, idc.1)
  else (g1, idc.2, idc.1)

/-- A sequence of `add_content` calls against the local graph, starting from
the empty graph (the Neo4j connection is absent, so `add_content` is exactly
`_add_to_local_graph`). -/
def buildGraph (provider : Provider) (ps : List Payload) : Graph × ℕ :=
  ps.foldl (fun gc p => let r := addToLocalGraph provider p none gc.1 gc.2; (r.1, r.2.1)) ({}, 0)

/-! ### Search (`search_content`, `_text_search`) -/

/-- One search result record (`node_id`, `similarity`, `data`). -/
structure SearchResult where
  node_id : ℕ
  similarity : ℚ
  data : Attrs
deriving DecidableEq

/-- A candidate paired with the insertion position of its node in
`Graph.nodes`; the position is the stability tiebreak of Python's sort. -/
abbrev Cand := ℕ × SearchResult

/-- Pairs every element with its position, starting at `n`. -/
def idxList (n : ℕ) : List α → List (ℕ × α)
  | [] => []
  | a :: as => (n, a) :: idxList (n + 1) as

/-- The candidate list of a search pass: iterate the nodes in insertion
order and keep those the scoring function accepts. -/
def candList (g : Graph) (f : Attrs → Option ℚ) : List Cand :=
  (idxList 0 g.nodes).filterMap (fun p =>
    match f p.2.2 with
    | some s => some (p.1, ⟨p.2.1, s, p.2.2⟩)
    | none => none)

/-- Ordering used to model `results.sort(key=lambda x: x['similarity'],
reverse=True)`: Python's sort is stable, and a stable descending sort of a
list whose insertion positions are strictly increasing coincides with
sorting by (similarity descending, position ascending). -/
def rankRel (a b : Cand) : Prop :=
  b.2.similarity < a.2.similarity ∨ (a.2.similarity = b.2.similarity ∧ a.1 ≤ b.1)

instance : DecidableRel rankRel := fun a b => by
  unfold rankRel; infer_instance

/-- Sort descending by similarity (stable), truncate to `limit`, and return
the result records (`results[:limit]`). -/
def rankTrim (l : List Cand) (limit : ℕ) : List SearchResult :=
  ((List.insertionSort rankRel l).take limit).map Prod.snd

/-- Python truthiness of `node_data['embedding']` guarded by
`'embedding' in node_data`: the key is present and holds a nonempty list. -/
def truthyEmb (a : Attrs) : Bool :=
  match a.embedding with
  | some (some (_ :: _)) => true
  | _ => false

/-- The relevance threshold `0.3` of `search_content`. -/
def relevanceThreshold : ℚ := 3 / 10

/-- Per-node scoring of the embedding pass of `search_content`: nodes with a
truthy embedding attribute are scored by similarity against the query
embedding and kept above the threshold.  `sim` stands for the float
subroutine `_cosine_similarity` (analysed separately over `ℝ` as
`cosineSim`). -/
def semScore (sim : List ℚ → List ℚ → ℚ) (qe : List ℚ) (a : Attrs) : Option ℚ :=
  match a.embedding with
  | some (some v) =>
    if v ≠ [] then
      (if sim qe v > relevanceThreshold then some (sim qe v) else none)
    else none
  | _ => none

/-- Per-node score of `_text_search`: 2 points when the lowercased query is
a substring of the `title` attribute, 1 when it is a substring of the
`text_content` attribute. -/
def lexScore (ql : String) (a : Attrs) : ℕ :=
  (match a.title with
   | some t => if strContains (lowerStr t) ql then 2 else 0
   | none => 0) +
  (match a.text_content with
   | some t => if strContains (lowerStr t) ql then 1 else 0
   | none => 0)

/-- Scoring function of the lexical pass: keep nodes with a nonzero score,
normalised by 3. -/
def lexScoreOpt (ql : String) (a : Attrs) : Option ℚ :=
  let s := lexScore ql a
  if s > 0 then some ((s : ℚ) / 3) else none

/-- `GraphManager._text_search`. -/
def textSearch (g : Graph) (q : String) (limit : ℕ) : List SearchResult :=
  rankTrim (candList g (lexScoreOpt (lowerStr q))) limit

/-- `GraphManager.search_content`: embedding search when the model is
available and `encode` succeeds, lexical fallback otherwise. -/
def searchContent (g : Graph) (enc : Provider) (sim : List ℚ → List ℚ → ℚ)
    (q : String) (limit : ℕ) : List SearchResult :=
  match enc with
  | none => textSearch g q limit
  | some e =>
    match e q with
    | none => textSearch g q limit
    | some qe => rankTrim (candList g (semScore sim qe)) limit

/-! ### Cosine similarity over `ℝ` (`_cosine_similarity`) -/

/-- `np.dot` on (equal-length) vectors. -/
def dotList : List ℝ → List ℝ → ℝ
  | a :: as, b :: bs => a * b + dotList as bs
  | _, _ => 0

/-- Sum of squares, so that `np.linalg.norm v = √(sumSq v)`. -/
def sumSq (v : List ℝ) : ℝ := dotList v v

/-- `np.linalg.norm`. -/
noncomputable def normL (v : List ℝ) : ℝ := Real.sqrt (sumSq v)

/-- `GraphManager._cosine_similarity`: `dot/(|a||b|)`, `0.0` when either
norm is zero, and `0.0` when the computation raises — with list inputs the
only such case is `np.dot` on mismatched shapes. -/
noncomputable def cosineSim (a b : List ℝ) : ℝ :=
  if a.length ≠ b.length then 0
  else if normL a = 0 ∨ normL b = 0 then 0
  else dotList a b / (normL a * normL b)

/-! ### Export (`export_graph`) -/

/-- Flat JSON record layout produced by the `json` branch. -/
structure GraphJson where
  jnodes : List (ℕ × Attrs)
  jedges : List GEdge
deriving DecidableEq

/-- Serialized representation per format.  The GML/GraphML writers are
external NetworkX calls; they are modelled as carrying the whole graph. -/
inductive ExportData where
  | json : GraphJson → ExportData
  | gml : Graph → ExportData
  | graphml : Graph → ExportData
deriving DecidableEq

/-- The `json` branch of `export_graph`: nodes then edges as flat records. -/
def jsonExport (g : Graph) : GraphJson :=
  { jnodes := g.nodes, jedges := g.edges }

/-- The body of the `try` block of `export_graph`: dispatch on the format,
raising `ValueError` for an unsupported one. -/
def exportDispatch (g : Graph) (format : String) : Except String ExportData :=
  if format = "json" then Except.ok (ExportData.json (jsonExport g))
  else if format = "gml" then Except.ok (ExportData.gml g)
  else if format = "graphml" then Except.ok (ExportData.graphml g)
  else Except.error ("Unsupported format: " ++ format)

/-- What a call of `export_graph` does, as seen by its caller: the method's
own `except` swallows every exception, so the caller always gets a normal
`None` return; the written file and the log line are side effects. -/
structure ExportEffect where
  callerResult : Except String Unit
  fileOutput : Option ExportData
  logged : Option String

/-- `GraphManager.export_graph`: the whole body is wrapped in
`try/except Exception`, which logs and returns normally. -/
def exportGraph (g : Graph) (format : String) : ExportEffect :=
  match exportDispatch g format with
  | Except.ok d => ⟨Except.ok (), some d, none⟩
  | Except.error e => ⟨Except.ok (), none, some ("Error exporting graph: " ++ e)⟩

/-! ### Query processor data model (`query_processor.py`) -/

/-- The `QueryIntent` enum. -/
inductive QueryIntent where
  | INFORMATION_RETRIEVAL
  | DATA_DOWNLOAD
  | TECHNICAL_SUPPORT
  | GEOSPATIAL_QUERY
  | API_HELP
  | GENERAL_QUESTION
  | UNKNOWN
deriving DecidableEq

/-- The `QueryEntity` enum. -/
inductive QueryEntity where
  | LOCATION
  | SATELLITE
  | SENSOR
  | DATA_TYPE
  | TIME_PERIOD
  | RESOLUTION
  | FILE_FORMAT
  | API_ENDPOINT
deriving DecidableEq

/-- The `entities` dictionary: an insertion-ordered association list from
entity kind to candidate strings, with Python-dict key semantics. -/
abbrev EntityMap := List (QueryEntity × List String)

/-- Python dict lookup `m[k]` / `m.get(k)`. -/
def lookupKind : EntityMap → QueryEntity → Option (List String)
  | [], _ => none
  | (k', v) :: rest, k => if k' = k then some v else lookupKind rest k

/-- Python `k in m`. -/
def hasKind (m : EntityMap) (k : QueryEntity) : Bool := (lookupKind m k).isSome

/-- Python dict assignment `m[k] = v`: replace in place, else append. -/
def dictSet : EntityMap → QueryEntity → List String → EntityMap
  | [], k, v => [(k, v)]
  | (k', w) :: rest, k, v =>
    if k' = k then (k', v) :: rest else (k', w) :: dictSet rest k v

/-- The idiom `if k not in m: m[k] = []` followed by `m[k].append(s)`. -/
def dictAppend : EntityMap → QueryEntity → String → EntityMap
  | [], k, s => [(k, [s])]
  | (k', v) :: rest, k, s =>
    if k' = k then (k', v ++ [s]) :: rest else (k', v) :: dictAppend rest k s

/-- Python `m1.update(m2)`. -/
def dictUpdate (m1 m2 : EntityMap) : EntityMap :=
  m2.foldl (fun acc p => dictSet acc p.1 p.2) m1

/-- One span of the spaCy tagger output (`ent.label_`, `ent.text`). -/
structure TagSpan where
  label : String
  text : String
deriving DecidableEq

/-- One spaCy token (the fields `_extract_keywords` reads). -/
structure TagToken where
  text : String
  lemmaStr : String
  pos : String
  isStop : Bool
deriving DecidableEq

/-- The spaCy analysis of one query, as consumed by the processor. -/
structure TaggerOut where
  ents : List TagSpan := []
  nounChunks : List String := []
  tokens : List TagToken := []
deriving DecidableEq

/-- Python `any(word in chunk_lower for word in ws)`. -/
def containsAnyOf (s : String) (ws : List String) : Bool :=
  ws.any (fun w => strContains s w)

/-- The named-entity loop of `_extract_with_spacy`. -/
def spacyEntsFold (ents : List TagSpan) (m : EntityMap) : EntityMap :=
  ents.foldl (fun acc e =>
    if e.label = "GPE" then dictAppend acc QueryEntity.LOCATION e.text
    else if e.label = "ORG" then dictAppend acc QueryEntity.SATELLITE e.text
    else if e.label = "PRODUCT" then dictAppend acc QueryEntity.DATA_TYPE e.text
    else acc) m

/-- The noun-chunk loop of `_extract_with_spacy`. -/
def spacyChunksFold (chunks : List String) (m : EntityMap) : EntityMap :=
  chunks.foldl (fun acc c =>
    if containsAnyOf (lowerStr c) ["satellite", "mission", "data"] then
      dictAppend acc QueryEntity.SATELLITE c
    else if containsAnyOf (lowerStr c) ["sensor", "instrument"] then
      dictAppend acc QueryEntity.SENSOR c
    else acc) m

/-- `QueryProcessor._extract_with_spacy` applied to a tagger analysis. -/
def extractWithSpacy (t : TaggerOut) : EntityMap :=
  spacyChunksFold t.nounChunks (spacyEntsFold t.ents [])

/-- Table order of the pattern extraction in `_extract_with_patterns`. -/
def patternKindOrder : List QueryEntity :=
  [QueryEntity.LOCATION, QueryEntity.SATELLITE, QueryEntity.SENSOR,
   QueryEntity.DATA_TYPE, QueryEntity.TIME_PERIOD, QueryEntity.RESOLUTION,
   QueryEntity.FILE_FORMAT, QueryEntity.API_ENDPOINT]

/-- One `if matches: entities[kind] = list(set(matches))` step. -/
def addIfFound (k : QueryEntity) (v : List String) (m : EntityMap) : EntityMap :=
  if v = [] then m else m ++ [(k, pySetList v)]

/-- `QueryProcessor._extract_with_patterns`, given the concatenated
`re.findall` match lists per entity kind (`rv`): kinds are inserted in
source order, only when nonempty, deduplicated through `list(set(...))`. -/
def patternsMap (rv : QueryEntity → List String) : EntityMap :=
  addIfFound QueryEntity.API_ENDPOINT (rv QueryEntity.API_ENDPOINT)
    (addIfFound QueryEntity.FILE_FORMAT (rv QueryEntity.FILE_FORMAT)
      (addIfFound QueryEntity.RESOLUTION (rv QueryEntity.RESOLUTION)
        (addIfFound QueryEntity.TIME_PERIOD (rv QueryEntity.TIME_PERIOD)
          (addIfFound QueryEntity.DATA_TYPE (rv QueryEntity.DATA_TYPE)
            (addIfFound QueryEntity.SENSOR (rv QueryEntity.SENSOR)
              (addIfFound QueryEntity.SATELLITE (rv QueryEntity.SATELLITE)
                (addIfFound QueryEntity.LOCATION (rv QueryEntity.LOCATION) [])))))))

/-- `QueryProcessor._extract_entities`: start from the pattern map and, when
the tagger is available, apply `entities.update(self._extract_with_spacy(query))`. -/
def extractEntitiesPure (pm : EntityMap) (tago : Option TaggerOut) : EntityMap :=
  match tago with
  | none => pm
  | some t => dictUpdate pm (extractWithSpacy t)

/-- The regex engine: per preprocessed query and entity kind, the
concatenation of the `re.findall` results of that kind's patterns; `error`
models a raising call, which `process_query`'s blanket handler catches. -/
abbrev RawMatches := String → QueryEntity → Except String (List String)

/-- Sequences the eight per-kind `re.findall` passes of
`_extract_with_patterns` in source order, short-circuiting on a raise. -/
def sequenceRaw (rq : QueryEntity → Except String (List String)) :
    Except String (QueryEntity → List String) := do
  let ls ← rq QueryEntity.LOCATION
  let sats ← rq QueryEntity.SATELLITE
  let sens ← rq QueryEntity.SENSOR
  let dts ← rq QueryEntity.DATA_TYPE
  let tps ← rq QueryEntity.TIME_PERIOD
  let rss ← rq QueryEntity.RESOLUTION
  let ffs ← rq QueryEntity.FILE_FORMAT
  let apis ← rq QueryEntity.API_ENDPOINT
  pure (fun k => match k with
    | QueryEntity.LOCATION => ls
    | QueryEntity.SATELLITE => sats
    | QueryEntity.SENSOR => sens
    | QueryEntity.DATA_TYPE => dts
    | QueryEntity.TIME_PERIOD => tps
    | QueryEntity.RESOLUTION => rss
    | QueryEntity.FILE_FORMAT => ffs
    | QueryEntity.API_ENDPOINT => apis)

/-! ### Intent classification (`_classify_intent`) -/

/-- The per-intent trigger-keyword lists of the `intent_keywords` table
(the two residual intents have no entry, hence no keywords). -/
def keywordTable : QueryIntent → List String
  | QueryIntent.INFORMATION_RETRIEVAL =>
    ["what", "how", "where", "when", "which", "tell me", "explain",
     "information", "details", "about", "describe"]
  | QueryIntent.DATA_DOWNLOAD =>
    ["download", "get", "obtain", "access", "retrieve", "fetch",
     "data", "file", "product", "imagery"]
  | QueryIntent.TECHNICAL_SUPPORT =>
    ["help", "support", "problem", "issue", "error", "trouble",
     "fix", "resolve", "work", "function"]
  | QueryIntent.GEOSPATIAL_QUERY =>
    ["location", "area", "region", "coordinates", "latitude", "longitude",
     "spatial", "geographic", "map", "boundary"]
  | QueryIntent.API_HELP =>
    ["api", "endpoint", "service", "call", "request", "response",
     "code", "example", "documentation", "integration"]
  | _ => []

/-- The `intent_keywords` dict, in declaration order. -/
def intentKeywords : List (QueryIntent × List String) :=
  [(QueryIntent.INFORMATION_RETRIEVAL, keywordTable QueryIntent.INFORMATION_RETRIEVAL),
   (QueryIntent.DATA_DOWNLOAD, keywordTable QueryIntent.DATA_DOWNLOAD),
   (QueryIntent.TECHNICAL_SUPPORT, keywordTable QueryIntent.TECHNICAL_SUPPORT),
   (QueryIntent.GEOSPATIAL_QUERY, keywordTable QueryIntent.GEOSPATIAL_QUERY),
   (QueryIntent.API_HELP, keywordTable QueryIntent.API_HELP)]

/-- Count of table keywords contained (as substrings) in the query. -/
def countContained (q : String) (kws : List String) : ℕ :=
  (kws.filter (fun kw => strContains q kw)).length

/-- Adds `d` to the score of intent `i` (`scores[i] += d`). -/
def bumpScore (m : List (QueryIntent × ℕ)) (i : QueryIntent) (d : ℕ) :
    List (QueryIntent × ℕ) :=
  m.map (fun p => if p.1 = i then (p.1, p.2 + d) else p)

/-- The `scores` dict of `_classify_intent` after keyword counting and the
three entity-driven bonuses. -/
def scoresList (q : String) (ent : EntityMap) : List (QueryIntent × ℕ) :=
  let base := intentKeywords.map (fun p => (p.1, countContained q p.2))
  let s1 := if hasKind ent QueryEntity.LOCATION then
    bumpScore base QueryIntent.GEOSPATIAL_QUERY 2 else base
  let s2 := if hasKind ent QueryEntity.API_ENDPOINT then
    bumpScore s1 QueryIntent.API_HELP 2 else s1
  if hasKind ent QueryEntity.FILE_FORMAT then
    bumpScore s2 QueryIntent.DATA_DOWNLOAD 1 else s2

/-- Python `max(values)`: fold keeping the current maximum (0 for an empty
list; the code only applies it to the five nonnegative scores). -/
def maxValues (l : List ℕ) : ℕ :=
  l.foldl (fun acc x => if x > acc then x else acc) 0

/-- Python `max(scores, key=scores.get)`: the first key of maximal value in
iteration (= insertion) order. -/
def firstMaxKey : List (QueryIntent × ℕ) → QueryIntent
  | [] => QueryIntent.UNKNOWN
  | p :: rest => (rest.foldl (fun acc x => if x.2 > acc.2 then x else acc) p).1

/-- `total_possible`: the sum of the keyword-table sizes. -/
def totalPossible : ℕ := (intentKeywords.map (fun p => p.2.length)).foldl (· + ·) 0

/-- `QueryProcessor._classify_intent`. -/
def classifyIntent (q : String) (ent : EntityMap) : QueryIntent × ℚ :=
  let scores := scoresList q ent
  if maxValues (scores.map Prod.snd) = 0 then (QueryIntent.GENERAL_QUESTION, 1 / 2)
  else (firstMaxKey scores,
    min ((maxValues (scores.map Prod.snd) : ℚ) / (totalPossible : ℚ)) 1)

/-! ### Keyword extraction and the full pipeline (`process_query`) -/

/-- `QueryProcessor._extract_keywords`: without a tagger, the words longer
than 3 characters; with one, deduplicated lemmas of non-stop nouns, verbs
and adjectives longer than 2 characters plus the lowercased entity texts. -/
def extractKeywords (tago : Option TaggerOut) (q : String) : List String :=
  match tago with
  | none => (pyWords q).filter (fun w => w.length > 3)
  | some t =>
    pySetList
      ((t.tokens.filterMap (fun tok =>
          if (tok.pos = "NOUN" || tok.pos = "VERB" || tok.pos = "ADJ") &&
              !tok.isStop && tok.text.length > 2 then
            some (lowerStr tok.lemmaStr)
          else none)) ++
        t.ents.map (fun e => lowerStr e.text))

/-- The result record `QueryAnalysis`. -/
structure QueryAnalysis where
  intent : QueryIntent
  entities : EntityMap
  confidence : ℚ
  keywords : List String
  original_query : String
  processed_query : String
deriving DecidableEq

/-- The `try` body of `process_query`: preprocess, extract entities (the
regex passes may raise), classify, extract keywords. -/
def processBody (rq : RawMatches) (tag : String → Option TaggerOut)
    (q : String) : Except String QueryAnalysis := do
  let pq := preprocess q
  let rv ← sequenceRaw (rq pq)
  let entities := extractEntitiesPure (patternsMap rv) (tag pq)
  let ic := classifyIntent pq entities
  let keywords := extractKeywords (tag pq) pq
  pure ⟨ic.1, entities, ic.2, keywords, q, pq⟩

/-- `QueryProcessor.process_query`: any exception in the body is caught and
replaced by the `UNKNOWN` analysis with confidence 0. -/
def processQuery (rq : RawMatches) (tag : String → Option TaggerOut)
    (q : String) : QueryAnalysis :=
  match processBody rq tag q with
  | Except.ok a => a
  | Except.error _ => ⟨QueryIntent.UNKNOWN, [], 0, [], q, q⟩

/-! ### Basic facts about the cosine subroutine -/

theorem dotList_comm (a : List ℝ) : ∀ b : List ℝ, dotList a b = dotList b a := by
  induction a with
  | nil => intro b; cases b <;> simp [dotList]
  | cons x xs ih =>
    intro b
    cases b with
    | nil => simp [dotList]
    | cons y ys => simp [dotList, ih, mul_comm]

theorem sumSq_nonneg (v : List ℝ) : 0 ≤ sumSq v := by
  unfold sumSq
  induction v with
  | nil => simp [dotList]
  | cons x xs ih => simpa [dotList] using add_nonneg (mul_self_nonneg x) ih

theorem normL_nonneg (v : List ℝ) : 0 ≤ normL v := Real.sqrt_nonneg _

theorem sq_normL (v : List ℝ) : normL v * normL v = sumSq v := by
  simpa [normL] using Real.mul_self_sqrt (sumSq_nonneg v)

/-- Cauchy–Schwarz for `dotList`/`sumSq` (no length condition: `np.dot` of
our model truncates at the shorter list, which only shrinks the left side). -/
theorem dotList_sq_le (a : List ℝ) : ∀ b : List ℝ,
    dotList a b * dotList a b ≤ sumSq a * sumSq b := by
  induction a with
  | nil =>
    intro b
    cases b <;> simp [dotList, sumSq]
  | cons x xs ih =>
    intro b
    cases b with
    | nil => simp [dotList, sumSq]
    | cons y ys =>
      have hA : 0 ≤ sumSq xs := sumSq_nonneg xs
      have hB : 0 ≤ sumSq ys := sumSq_nonneg ys
      have hD : dotList xs ys * dotList xs ys ≤ sumSq xs * sumSq ys := ih ys
      show (x * y + dotList xs ys) * (x * y + dotList xs ys) ≤
        (x * x + sumSq xs) * (y * y + sumSq ys)
      rcases eq_or_lt_of_le hB with hB0 | hBpos
      · rw [← hB0] at hD ⊢
        have h00 : dotList xs ys * dotList xs ys = 0 :=
          le_antisymm (by linarith) (mul_self_nonneg _)
        have hD0 : dotList xs ys = 0 := mul_self_eq_zero.mp h00
        rw [hD0]
        nlinarith [mul_nonneg hA (mul_self_nonneg y)]
      · nlinarith [sq_nonneg (x * sumSq ys - y * dotList xs ys),
          mul_nonneg (add_nonneg (mul_self_nonneg y) hB) (sub_nonneg.mpr hD), hBpos]

theorem abs_dotList_le (a b : List ℝ) : |dotList a b| ≤ normL a * normL b := by
  have hnn : 0 ≤ normL a * normL b := mul_nonneg (normL_nonneg a) (normL_nonneg b)
  have h1 : dotList a b ^ 2 ≤ (normL a * normL b) ^ 2 := by
    have h := dotList_sq_le a b
    calc dotList a b ^ 2 = dotList a b * dotList a b := sq (dotList a b) ▸ by ring
    _ ≤ sumSq a * sumSq b := h
    _ = (normL a * normL b) ^ 2 := by rw [← sq_normL a, ← sq_normL b]; ring
  calc |dotList a b| = Real.sqrt (dotList a b ^ 2) := (Real.sqrt_sq_eq_abs _).symm
  _ ≤ Real.sqrt ((normL a * normL b) ^ 2) := Real.sqrt_le_sqrt h1
  _ = normL a * normL b := Real.sqrt_sq hnn

/-- C2 counterexample: the zero vector compared with itself yields 0, not
1.0 — the claim's universal self-similarity clause fails there. -/
theorem C2_cex : cosineSim [(0 : ℝ)] [(0 : ℝ)] = 0 ∧ (0 : ℝ) ≠ 1 := by
  constructor
  · have h : normL [(0 : ℝ)] = 0 := by
      simp [normL, sumSq, dotList]
    simp [cosineSim, h]
  · norm_num

/-- C2 (amended): the cosine subroutine is symmetric and bounded in
`[-1, 1]`; every vector of nonzero norm compared with itself yields exactly
1; whenever either norm is zero the result is 0 (no division by zero). -/
theorem C2_cosine_props (a b : List ℝ) :
    cosineSim a b = cosineSim b a ∧
    -1 ≤ cosineSim a b ∧ cosineSim a b ≤ 1 ∧
    (normL a ≠ 0 → cosineSim a a = 1) ∧
    ((normL a = 0 ∨ normL b = 0) → cosineSim a b = 0) := by
  have hsym : cosineSim a b = cosineSim b a := by
    unfold cosineSim
    rcases eq_or_ne a.length b.length with hl | hl
    · rw [if_neg (show ¬a.length ≠ b.length by simp [hl]),
        if_neg (show ¬b.length ≠ a.length by simp [hl])]
      by_cases hz : normL a = 0 ∨ normL b = 0
      · rw [if_pos hz, if_pos (Or.symm hz)]
      · rw [if_neg hz, if_neg (fun h => hz (Or.symm h)), dotList_comm, mul_comm]
    · rw [if_pos hl, if_pos (Ne.symm hl)]
  have hzero : (normL a = 0 ∨ normL b = 0) → cosineSim a b = 0 := by
    intro hz
    unfold cosineSim
    rcases eq_or_ne a.length b.length with hl | hl
    · rw [if_neg (by simp [hl]), if_pos hz]
    · rw [if_pos hl]
  have hbound : |cosineSim a b| ≤ 1 := by
    unfold cosineSim
    rcases eq_or_ne a.length b.length with hl | hl
    · by_cases hz : normL a = 0 ∨ normL b = 0
      · rw [if_neg (by simp [hl]), if_pos hz]; simp
      · push_neg at hz
        have hx : 0 < normL a := lt_of_le_of_ne (normL_nonneg a) (Ne.symm hz.1)
        have hy : 0 < normL b := lt_of_le_of_ne (normL_nonneg b) (Ne.symm hz.2)
        rw [if_neg (by simp [hl]), if_neg (by push_neg; exact hz)]
        rw [abs_div, abs_of_pos (mul_pos hx hy), div_le_one (mul_pos hx hy)]
        exact abs_dotList_le a b
    · rw [if_pos hl]; simp
  have hself : normL a ≠ 0 → cosineSim a a = 1 := by
    intro hn
    have hs : sumSq a ≠ 0 := fun h => hn (by rw [normL, h, Real.sqrt_zero])
    unfold cosineSim
    rw [if_neg (by simp), if_neg (by simpa using hn), sq_normL a]
    exact div_self hs
  exact ⟨hsym, (abs_le.mp hbound).1, (abs_le.mp hbound).2, hself, hzero⟩

/-- C2 witness: at `a = [1]`, `b = [0]` the nonzero-norm self-similarity
hypothesis and the zero-norm hypothesis are both discharged concretely. -/
theorem C2_cosine_props_witness :
    normL [(1 : ℝ)] ≠ 0 ∧ normL [(0 : ℝ)] = 0 ∧
    cosineSim [(1 : ℝ)] [(1 : ℝ)] = 1 ∧ cosineSim [(0 : ℝ)] [(1 : ℝ)] = 0 := by
  have h1 : normL [(1 : ℝ)] = 1 := by
    simp [normL, sumSq, dotList]
  have h0 : normL [(0 : ℝ)] = 0 := by
    simp [normL, sumSq, dotList]
  refine ⟨by rw [h1]; norm_num, h0, ?_, ?_⟩
  · exact (C2_cosine_props [(1 : ℝ)] [(1 : ℝ)]).2.2.2.1 (by rw [h1]; norm_num)
  · exact (C2_cosine_props [(0 : ℝ)] [(1 : ℝ)]).2.2.2.2 (Or.inl h0)

/-! ### C9: export formats -/

/-- C9 counterexample: exporting to the unsupported format `xml` is not an
error reported to the caller — the `ValueError` is caught by the method's
own handler, the caller sees a normal return, nothing is written and the
error only reaches the log. -/
theorem C9_cex :
    (exportGraph {} "xml").callerResult = Except.ok () ∧
    (exportGraph {} "xml").fileOutput = none ∧
    (exportGraph {} "xml").logged =
      some "Error exporting graph: Unsupported format: xml" := by
  refine ⟨?_, ?_, ?_⟩ <;> rfl

/-- C9 (amended): for a format other than `json`, `gml` and `graphml` the
export raises `ValueError` internally, which the method's blanket handler
catches and logs — the caller observes a normal return and no output is
produced; for the three supported formats the corresponding serialized
representation is produced. -/
theorem C9_export_dispatch (g : Graph) (format : String) :
    (format ∉ ["json", "gml", "graphml"] →
      exportGraph g format =
        ⟨Except.ok (), none,
          some ("Error exporting graph: " ++ ("Unsupported format: " ++ format))⟩) ∧
    exportGraph g "json" = ⟨Except.ok (), some (ExportData.json (jsonExport g)), none⟩ ∧
    exportGraph g "gml" = ⟨Except.ok (), some (ExportData.gml g), none⟩ ∧
    exportGraph g "graphml" = ⟨Except.ok (), some (ExportData.graphml g), none⟩ := by
  refine ⟨?_, rfl, rfl, rfl⟩
  intro h
  simp only [List.mem_cons, List.mem_singleton, not_or] at h
  obtain ⟨h1, h2, h3, -⟩ := h
  simp [exportGraph, exportDispatch, h1, h2, h3]

/-- C9 witness: the unsupported-format hypothesis discharged at `xml`. -/
theorem C9_export_dispatch_witness :
    "xml" ∉ ["json", "gml", "graphml"] ∧
    exportGraph {} "xml" =
      ⟨Except.ok (), none,
        some ("Error exporting graph: " ++ ("Unsupported format: " ++ "xml"))⟩ := by
  refine ⟨by decide, (C9_export_dispatch {} "xml").1 (by decide)⟩

/-! ### Ordering infrastructure for the search pipeline -/

theorem rankRel_total : ∀ a b : Cand, rankRel a b ∨ rankRel b a := by
  intro a b
  rcases lt_trichotomy a.2.similarity b.2.similarity with h | h | h
  · exact Or.inr (Or.inl h)
  · rcases Nat.le_total a.1 b.1 with hi | hi
    · exact Or.inl (Or.inr ⟨h, hi⟩)
    · exact Or.inr (Or.inr ⟨h.symm, hi⟩)
  · exact Or.inl (Or.inl h)

theorem rankRel_trans : ∀ a b c : Cand, rankRel a b → rankRel b c → rankRel a c := by
  intro a b c hab hbc
  rcases hab with h1 | ⟨h1, h1i⟩ <;> rcases hbc with h2 | ⟨h2, h2i⟩
  · exact Or.inl (h2.trans h1)
  · exact Or.inl (h2 ▸ h1)
  · exact Or.inl (h2.trans_eq h1.symm)
  · exact Or.inr ⟨h1.trans h2, h1i.trans h2i⟩

instance : IsTotal Cand rankRel := ⟨rankRel_total⟩

instance : IsTrans Cand rankRel := ⟨rankRel_trans⟩

theorem idxList_ge {α : Type} (n : ℕ) (l : List α) : ∀ p ∈ idxList n l, n ≤ p.1 := by
  induction l generalizing n with
  | nil => intro p hp; cases hp
  | cons a as ih =>
    intro p hp
    rcases List.mem_cons.mp hp with rfl | hp
    · simp
    · exact le_of_lt (lt_of_lt_of_le (Nat.lt_succ_self n) (ih (n + 1) p hp))

theorem idxList_pairwise {α : Type} (n : ℕ) (l : List α) :
    List.Pairwise (fun a b : ℕ × α => a.1 < b.1) (idxList n l) := by
  induction l generalizing n with
  | nil => exact List.Pairwise.nil
  | cons a as ih =>
    refine List.Pairwise.cons ?_ (ih (n + 1))
    intro p hp
    exact lt_of_lt_of_le (Nat.lt_succ_self n) (idxList_ge (n + 1) as p hp)

theorem idxList_mem {α : Type} (l : List α) : ∀ (n : ℕ), ∀ p ∈ idxList n l,
    ∃ j, ∃ h : j < l.length, p.1 = n + j ∧ p.2 = l.get ⟨j, h⟩ := by
  induction l with
  | nil => intro n p hp; cases hp
  | cons a as ih =>
    intro n p hp
    rcases List.mem_cons.mp hp with rfl | hp
    · exact ⟨0, Nat.succ_pos _, by simp, by simp⟩
    · obtain ⟨j, hj, h1, h2⟩ := ih (n + 1) p hp
      exact ⟨j + 1, Nat.succ_lt_succ hj, by omega, by simpa using h2⟩

theorem candList_pairwise_idx (g : Graph) (f : Attrs → Option ℚ) :
    List.Pairwise (fun a b : Cand => a.1 < b.1) (candList g f) := by
  unfold candList
  rw [List.pairwise_filterMap]
  refine (idxList_pairwise 0 g.nodes).imp ?_
  intro a b hab c hc d hd
  rcases hfa : f a.2.2 with _ | s <;> rw [hfa] at hc
  · cases hc
  rcases hfb : f b.2.2 with _ | t <;> rw [hfb] at hd
  · cases hd
  have hc' : (a.1, (⟨a.2.1, s, a.2.2⟩ : SearchResult)) = c := by simpa using hc
  have hd' : (b.1, (⟨b.2.1, t, b.2.2⟩ : SearchResult)) = d := by simpa using hd
  rw [← hc', ← hd']
  exact hab

theorem candList_mem (g : Graph) (f : Attrs → Option ℚ) :
    ∀ p ∈ candList g f, ∃ h : p.1 < g.nodes.length,
      (g.nodes.get ⟨p.1, h⟩).1 = p.2.node_id ∧
      (g.nodes.get ⟨p.1, h⟩).2 = p.2.data ∧
      f p.2.data = some p.2.similarity := by
  intro p hp
  unfold candList at hp
  rw [List.mem_filterMap] at hp
  obtain ⟨⟨qi, qid, qa⟩, hq, hfq⟩ := hp
  obtain ⟨j, hj, hj1, hj2⟩ := idxList_mem g.nodes 0 ⟨qi, qid, qa⟩ hq
  rcases hf : f qa with _ | s <;> rw [hf] at hfq
  · cases hfq
  have hp' : p = (qi, ⟨qid, s, qa⟩) := by simpa using hfq.symm
  subst hp'
  simp only at hj1 hj2
  have hqi : qi = j := by omega
  subst hqi
  exact ⟨hj, by rw [← hj2], by rw [← hj2], hf⟩

/-- Position of the first occurrence of `x` in a list (for node-id lists in
insertion order, the insertion rank; for the intent table, the declaration
rank). -/
def posOf {α : Type} [DecidableEq α] (x : α) : List α → ℕ
  | [] => 0
  | y :: ys => if y = x then 0 else posOf x ys + 1

theorem posOf_get {α : Type} [DecidableEq α] (l : List α) (hn : l.Nodup) :
    ∀ (i : ℕ) (h : i < l.length), posOf (l.get ⟨i, h⟩) l = i := by
  induction l with
  | nil => intro i h; cases h
  | cons y ys ih =>
    intro i h
    cases i with
    | zero => simp [posOf]
    | succ j =>
      have hj : j < ys.length := Nat.lt_of_succ_lt_succ h
      have hget : (y :: ys).get ⟨j + 1, h⟩ = ys.get ⟨j, hj⟩ := rfl
      have hymem : ys.get ⟨j, hj⟩ ∈ ys := List.get_mem ys j hj
      have hyne : y ≠ ys.get ⟨j, hj⟩ := fun he => (List.nodup_cons.mp hn).1 (he ▸ hymem)
      rw [hget]
      simp only [posOf, if_neg hyne]
      rw [ih (List.nodup_cons.mp hn).2 j hj]

theorem rankTrim_length (l : List Cand) (limit : ℕ) :
    (rankTrim l limit).length ≤ limit := by
  simp [rankTrim]

theorem rankTrim_mem (l : List Cand) (limit : ℕ) (r : SearchResult)
    (hr : r ∈ rankTrim l limit) : ∃ i, (i, r) ∈ l := by
  unfold rankTrim at hr
  rw [List.mem_map] at hr
  obtain ⟨p, hp, hpr⟩ := hr
  have h1 : p ∈ List.insertionSort rankRel l :=
    (List.take_sublist _ _).subset hp
  have h2 : p ∈ l := (List.perm_insertionSort rankRel l).subset h1
  refine ⟨p.1, ?_⟩
  rw [show r = p.2 from hpr.symm, Prod.mk.eta]
  exact h2

/-- Core ordering property of one search pass: sorting the candidates with
`rankRel` (the model of Python's stable descending sort) and truncating
yields a list that is non-increasing in similarity, with ties in insertion
order of the underlying candidates. -/
theorem rankTrim_pairwise (l : List Cand) (limit : ℕ)
    (hidx : List.Pairwise (fun a b : Cand => a.1 < b.1) l) :
    List.Pairwise (fun a b : Cand =>
      b.2.similarity ≤ a.2.similarity ∧
      (a.2.similarity = b.2.similarity → a.1 < b.1))
      ((List.insertionSort rankRel l).take limit) := by
  have hsorted : List.Pairwise rankRel (List.insertionSort rankRel l) :=
    List.sorted_insertionSort rankRel l
  have hperm : (List.insertionSort rankRel l).Perm l := List.perm_insertionSort rankRel l
  have hne : List.Pairwise (fun a b : Cand => a.1 ≠ b.1) l :=
    hidx.imp (fun h => Nat.ne_of_lt h)
  have hne' : List.Pairwise (fun a b : Cand => a.1 ≠ b.1) (List.insertionSort rankRel l) :=
    (List.Perm.pairwise_iff (fun h => h.symm) hperm).mpr hne
  have hcomb := hsorted.and hne'
  refine ((hcomb.imp ?_).sublist (List.take_sublist _ _))
  intro a b hab
  obtain ⟨hr, hne2⟩ := hab
  rcases hr with h | ⟨h, hi⟩
  · exact ⟨le_of_lt h, fun he => absurd (he ▸ h) (lt_irrefl _)⟩
  · exact ⟨le_of_eq h.symm, fun _ => lt_of_le_of_ne hi hne2⟩

/-- Full contract of one search pass over the candidate list of a scoring
function: at most `limit` results, non-increasing similarity, ties resolved
by node insertion order. -/
theorem searchPass_spec (g : Graph) (f : Attrs → Option ℚ) (limit : ℕ)
    (hids : (nodeIds g).Nodup) :
    (rankTrim (candList g f) limit).length ≤ limit ∧
    List.Pairwise (fun a b : SearchResult =>
      b.similarity ≤ a.similarity ∧
      (a.similarity = b.similarity →
        posOf a.node_id (nodeIds g) < posOf b.node_id (nodeIds g)))
      (rankTrim (candList g f) limit) := by
  refine ⟨rankTrim_length _ _, ?_⟩
  have hidx := candList_pairwise_idx g f
  have hp := rankTrim_pairwise (candList g f) limit hidx
  have hpos : ∀ p : Cand, p ∈ (List.insertionSort rankRel (candList g f)).take limit →
      posOf p.2.node_id (nodeIds g) = p.1 := by
    intro p hp'
    have h1 : p ∈ candList g f :=
      (List.perm_insertionSort rankRel (candList g f)).subset
        ((List.take_sublist _ _).subset hp')
    obtain ⟨h, hid, _, _⟩ := candList_mem g f p h1
    have hlen : p.1 < (nodeIds g).length := by simpa [nodeIds] using h
    have hget : (nodeIds g).get ⟨p.1, hlen⟩ = p.2.node_id := by
      show (nodeIds g)[p.1] = p.2.node_id
      simp only [nodeIds, List.getElem_map]
      exact hid
    have := posOf_get (nodeIds g) hids p.1 hlen
    rwa [hget] at this
  unfold rankTrim
  rw [List.pairwise_map]
  refine hp.imp_of_mem ?_
  intro a b ha hb hab
  refine ⟨hab.1, fun he => ?_⟩
  rw [hpos a ha, hpos b hb]
  exact hab.2 he

/-! ### C1: search result count, order and tie-breaking -/

/-- C1: for every graph (with its NetworkX-guaranteed distinct node ids),
every encoder state, similarity subroutine, query and limit, `search_content`
returns at most `limit` results, non-increasing in score, and ties keep the
node inserted into the graph first in front.  Both the embedding pass and
the lexical fallback go through the same sort-and-truncate tail. -/
theorem C1_search_limit_order (g : Graph) (enc : Provider)
    (sim : List ℚ → List ℚ → ℚ) (q : String) (limit : ℕ)
    (hids : (nodeIds g).Nodup) :
    (searchContent g enc sim q limit).length ≤ limit ∧
    List.Pairwise (fun a b : SearchResult =>
      b.similarity ≤ a.similarity ∧
      (a.similarity = b.similarity →
        posOf a.node_id (nodeIds g) < posOf b.node_id (nodeIds g)))
      (searchContent g enc sim q limit) := by
  rcases enc with _ | e
  · exact searchPass_spec g (lexScoreOpt (lowerStr q)) limit hids
  · rcases he : e q with _ | qe
    · have hred : searchContent g (some e) sim q limit = textSearch g q limit := by
        simp only [searchContent, he]
      rw [hred]
      exact searchPass_spec g (lexScoreOpt (lowerStr q)) limit hids
    · have hred : searchContent g (some e) sim q limit =
          rankTrim (candList g (semScore sim qe)) limit := by
        simp only [searchContent, he]
      rw [hred]
      exact searchPass_spec g (semScore sim qe) limit hids

/-- C1 witness: a two-node graph with distinct ids, lexical branch. -/
theorem C1_search_limit_order_witness :
    (nodeIds { nodes := [(0, { title := some "a" }), (1, { title := some "b" })] }).Nodup ∧
    ((searchContent { nodes := [(0, { title := some "a" }), (1, { title := some "b" })] }
        none (fun _ _ => 0) "a" 5).length ≤ 5 ∧
      List.Pairwise (fun a b : SearchResult =>
        b.similarity ≤ a.similarity ∧
        (a.similarity = b.similarity →
          posOf a.node_id (nodeIds { nodes := [(0, { title := some "a" }), (1, { title := some "b" })] }) <
          posOf b.node_id (nodeIds { nodes := [(0, { title := some "a" }), (1, { title := some "b" })] })))
        (searchContent { nodes := [(0, { title := some "a" }), (1, { title := some "b" })] }
          none (fun _ _ => 0) "a" 5)) := by
  refine ⟨by decide, C1_search_limit_order _ none (fun _ _ => 0) "a" 5 (by decide)⟩

/-! ### C6: lexical fallback scoring -/

/-- A one-node graph whose node carries a matching title, used to exercise
the lexical pass on concrete inputs. -/
def titledGraph : Graph :=
  { nodes := [(0, { title := some "Satellite Data", text_content := some "imagery" })] }

/-- C6: every result of `_text_search` comes from a graph node whose score
is the accumulation of 2 points for a query hit in the `title` attribute
and 1 point for a hit in the `text_content` attribute, divided by 3, and
only nodes with a nonzero accumulated score are kept. -/
theorem C6_lexical_scoring (g : Graph) (q : String) (limit : ℕ) (r : SearchResult)
    (hr : r ∈ textSearch g q limit) :
    ∃ p ∈ g.nodes, r.node_id = p.1 ∧ r.data = p.2 ∧
      lexScore (lowerStr q) p.2 ≠ 0 ∧
      r.similarity = (lexScore (lowerStr q) p.2 : ℚ) / 3 := by
  obtain ⟨i, hi⟩ := rankTrim_mem _ limit r hr
  obtain ⟨h, hid, hdata, hf⟩ := candList_mem g (lexScoreOpt (lowerStr q)) (i, r) hi
  have h2 : i < g.nodes.length := h
  have hid2 : (g.nodes.get ⟨i, h2⟩).1 = r.node_id := hid
  have hdata2 : (g.nodes.get ⟨i, h2⟩).2 = r.data := hdata
  have hf2 : lexScoreOpt (lowerStr q) r.data = some r.similarity := hf
  refine ⟨g.nodes.get ⟨i, h2⟩, List.get_mem _ _ _, hid2.symm, hdata2.symm, ?_⟩
  rw [hdata2]
  unfold lexScoreOpt at hf2
  by_cases hz : lexScore (lowerStr q) r.data > 0
  · rw [if_pos hz] at hf2
    exact ⟨by omega, (Option.some.injEq _ _ ▸ hf2).symm⟩
  · rw [if_neg hz] at hf2
    cases hf2

/-- C6 witness: on a concrete one-node graph the query `data` hits the
title (2 points, similarity 2/3) and the result list is that node. -/
theorem C6_lexical_scoring_witness :
    (⟨0, (2 : ℚ) / 3, { title := some "Satellite Data", text_content := some "imagery" }⟩ : SearchResult) ∈
      textSearch titledGraph "data" 10 ∧
    ∃ p ∈ titledGraph.nodes,
      (⟨0, (2 : ℚ) / 3, { title := some "Satellite Data", text_content := some "imagery" }⟩ :
        SearchResult).node_id = p.1 ∧
      (⟨0, (2 : ℚ) / 3, { title := some "Satellite Data", text_content := some "imagery" }⟩ :
        SearchResult).data = p.2 ∧
      lexScore (lowerStr "data") p.2 ≠ 0 ∧
      (⟨0, (2 : ℚ) / 3, { title := some "Satellite Data", text_content := some "imagery" }⟩ :
        SearchResult).similarity = (lexScore (lowerStr "data") p.2 : ℚ) / 3 := by
  have hsc : lexScore (lowerStr "data")
      { title := some "Satellite Data", text_content := some "imagery" } = 2 := by decide
  have h1 : lexScoreOpt (lowerStr "data")
      { title := some "Satellite Data", text_content := some "imagery" } = some ((2 : ℚ) / 3) := by
    unfold lexScoreOpt
    rw [hsc]
    norm_num
  have h2 : textSearch titledGraph "data" 10 =
      [⟨0, (2 : ℚ) / 3, { title := some "Satellite Data", text_content := some "imagery" }⟩] := by
    unfold textSearch rankTrim
    rw [show candList titledGraph (lexScoreOpt (lowerStr "data")) =
      [(0, ⟨0, (2 : ℚ) / 3, { title := some "Satellite Data", text_content := some "imagery" }⟩)] by
        unfold candList titledGraph
        simp [idxList, h1]]
    simp [List.insertionSort, List.orderedInsert]
  have hmem : (⟨0, (2 : ℚ) / 3,
      { title := some "Satellite Data", text_content := some "imagery" }⟩ : SearchResult) ∈
      textSearch titledGraph "data" 10 := by
    rw [h2]; exact List.mem_singleton.mpr rfl
  exact ⟨hmem, C6_lexical_scoring titledGraph "data" 10 _ hmem⟩

/-! ### C7: fallback semantics -/

/-- C7 counterexample: with a successfully computed zero-norm query
embedding (`[0]`, for which the cosine subroutine returns 0 against every
vector), search does not fall back to lexical scoring: the embedding pass
keeps nothing, so the result is empty even though the lexical pass would
return the matching titled node. -/
theorem C7_cex :
    searchContent titledGraph (some (fun _ => some [(0 : ℚ)])) (fun _ _ => 0) "data" 10 = [] ∧
    textSearch titledGraph "data" 10 ≠ [] := by
  constructor
  · have hred : searchContent titledGraph (some (fun _ => some [(0 : ℚ)]))
        (fun _ _ => 0) "data" 10 =
        rankTrim (candList titledGraph (semScore (fun _ _ => 0) [(0 : ℚ)])) 10 := by
      simp only [searchContent]
    rw [hred]
    have hc : candList titledGraph (semScore (fun _ _ => 0) [(0 : ℚ)]) = [] := by
      unfold candList titledGraph
      simp [idxList, semScore]
    rw [hc]
    rfl
  · have hsc : lexScore (lowerStr "data")
        { title := some "Satellite Data", text_content := some "imagery" } = 2 := by decide
    have h1 : lexScoreOpt (lowerStr "data")
        { title := some "Satellite Data", text_content := some "imagery" } = some ((2 : ℚ) / 3) := by
      unfold lexScoreOpt
      rw [hsc]
      norm_num
    have h2 : textSearch titledGraph "data" 10 =
        [⟨0, (2 : ℚ) / 3, { title := some "Satellite Data", text_content := some "imagery" }⟩] := by
      unfold textSearch rankTrim
      rw [show candList titledGraph (lexScoreOpt (lowerStr "data")) =
        [(0, ⟨0, (2 : ℚ) / 3, { title := some "Satellite Data", text_content := some "imagery" }⟩)] by
          unfold candList titledGraph
          simp [idxList, h1]]
      simp [List.insertionSort, List.orderedInsert]
    rw [h2]
    simp

/-- C7 (amended): search falls back to lexical scoring exactly when the
embedding model is absent or `encode` raises; when an embedding is computed
and — as with a zero-norm query vector — every similarity is 0, no node
passes the 0.3 threshold and the embedding pass returns the empty list
without falling back; in every case a defined list is returned, never an
exception. -/
theorem C7_fallback (g : Graph) (sim : List ℚ → List ℚ → ℚ) (q : String) (limit : ℕ) :
    searchContent g none sim q limit = textSearch g q limit ∧
    (∀ e : String → Option (List ℚ), e q = none →
      searchContent g (some e) sim q limit = textSearch g q limit) ∧
    (∀ (e : String → Option (List ℚ)) (qe : List ℚ), e q = some qe →
      (∀ v, sim qe v = 0) →
      searchContent g (some e) sim q limit = []) := by
  refine ⟨rfl, ?_, ?_⟩
  · intro e he
    simp only [searchContent, he]
  · intro e qe he hz
    have hred : searchContent g (some e) sim q limit =
        rankTrim (candList g (semScore sim qe)) limit := by
      simp only [searchContent, he]
    rw [hred]
    have hc : candList g (semScore sim qe) = [] := by
      unfold candList
      rw [List.filterMap_eq_nil_iff]
      intro p _
      have hs : semScore sim qe p.2.2 = none := by
        unfold semScore
        rcases p.2.2.embedding with _ | v
        · rfl
        rcases v with _ | l
        · rfl
        show (if l ≠ [] then
          (if sim qe l > relevanceThreshold then some (sim qe l) else none)
          else none) = none
        by_cases hl : l ≠ []
        · rw [if_pos hl, hz l, if_neg (by norm_num [relevanceThreshold])]
        · rw [if_neg hl]
      rw [hs]
    rw [hc]
    simp [rankTrim]

/-- C7 witness: the absent-encoder and zero-similarity hypotheses are
discharged at concrete inputs. -/
theorem C7_fallback_witness :
    ((fun _ : String => (none : Option (List ℚ))) "q" = none ∧
      searchContent {} (some (fun _ : String => (none : Option (List ℚ))))
        (fun _ _ => 0) "q" 5 = textSearch {} "q" 5) ∧
    ((fun _ : String => some [(0 : ℚ)]) "q" = some [(0 : ℚ)] ∧
      (∀ v : List ℚ, (fun (_ _ : List ℚ) => (0 : ℚ)) [(0 : ℚ)] v = 0) ∧
      searchContent {} (some (fun _ : String => some [(0 : ℚ)]))
        (fun _ _ => 0) "q" 5 = []) :=
  ⟨⟨rfl, (C7_fallback {} (fun _ _ => 0) "q" 5).2.1
      (fun _ : String => (none : Option (List ℚ))) rfl⟩,
   ⟨rfl, fun _ => rfl,
    (C7_fallback {} (fun _ _ => 0) "q" 5).2.2
      (fun _ : String => some [(0 : ℚ)]) [(0 : ℚ)] rfl (fun _ => rfl)⟩⟩

/-! ### C3: intent classification -/

/-- Table-declaration order of the five scored intents. -/
def tableOrder : List QueryIntent := intentKeywords.map Prod.fst

/-- The entity-driven score bonuses of `_classify_intent`, per intent. -/
def bonusOf (ent : EntityMap) (i : QueryIntent) : ℕ :=
  (if i = QueryIntent.GEOSPATIAL_QUERY ∧ hasKind ent QueryEntity.LOCATION = true
    then 2 else 0) +
  (if i = QueryIntent.API_HELP ∧ hasKind ent QueryEntity.API_ENDPOINT = true
    then 2 else 0) +
  (if i = QueryIntent.DATA_DOWNLOAD ∧ hasKind ent QueryEntity.FILE_FORMAT = true
    then 1 else 0)

/-- Specification-side score of one intent: trigger keywords contained in
the normalized query, plus the entity bonuses. -/
def specScore (q : String) (ent : EntityMap) (i : QueryIntent) : ℕ :=
  countContained q (keywordTable i) + bonusOf ent i

theorem scoresList_eq (q : String) (ent : EntityMap) :
    scoresList q ent = tableOrder.map (fun i => (i, specScore q ent i)) := by
  by_cases h1 : hasKind ent QueryEntity.LOCATION = true <;>
    by_cases h2 : hasKind ent QueryEntity.API_ENDPOINT = true <;>
      by_cases h3 : hasKind ent QueryEntity.FILE_FORMAT = true <;>
        simp [scoresList, h1, h2, h3, bumpScore, intentKeywords, tableOrder,
          specScore, bonusOf]

/-- The two intents outside the keyword table always score zero. -/
theorem specScore_residual (q : String) (ent : EntityMap) :
    specScore q ent QueryIntent.GENERAL_QUESTION = 0 ∧
    specScore q ent QueryIntent.UNKNOWN = 0 := by
  constructor <;> simp [specScore, keywordTable, countContained, bonusOf]

/-- Python `max(values)` as an accumulator fold. -/
def foldlMaxN (a : ℕ) (l : List ℕ) : ℕ :=
  l.foldl (fun acc x => if x > acc then x else acc) a

theorem maxValues_eq_foldlMaxN (l : List ℕ) : maxValues l = foldlMaxN 0 l := rfl

theorem foldlMaxN_cons_zero (v : ℕ) (l : List ℕ) :
    foldlMaxN 0 (v :: l) = foldlMaxN v l := by
  have hv : (if v > 0 then v else 0) = v := by
    by_cases h : v > 0
    · rw [if_pos h]
    · rw [if_neg h]; omega
  unfold foldlMaxN
  simp only [List.foldl_cons, hv]

theorem foldlMaxN_ge_acc : ∀ (l : List ℕ) (a : ℕ), a ≤ foldlMaxN a l := by
  intro l
  induction l with
  | nil => intro a; exact le_refl a
  | cons x xs ih =>
    intro a
    unfold foldlMaxN
    simp only [List.foldl_cons]
    refine le_trans ?_ (ih _)
    by_cases h : x > a
    · rw [if_pos h]; omega
    · rw [if_neg h]

theorem foldlMaxN_ge_mem : ∀ (l : List ℕ) (a : ℕ), ∀ x ∈ l, x ≤ foldlMaxN a l := by
  intro l
  induction l with
  | nil => intro a x hx; cases hx
  | cons y ys ih =>
    intro a x hx
    rcases List.mem_cons.mp hx with rfl | hx
    · unfold foldlMaxN
      simp only [List.foldl_cons]
      refine le_trans ?_ (foldlMaxN_ge_acc ys _)
      by_cases h : x > a
      · rw [if_pos h]
      · rw [if_neg h]; omega
    · exact ih _ x hx

theorem foldlMaxN_acc_or_mem : ∀ (l : List ℕ) (a : ℕ),
    foldlMaxN a l = a ∨ foldlMaxN a l ∈ l := by
  intro l
  induction l with
  | nil => intro a; exact Or.inl rfl
  | cons x xs ih =>
    intro a
    unfold foldlMaxN
    simp only [List.foldl_cons]
    by_cases h : x > a
    · rw [if_pos h]
      rcases ih x with h1 | h1
    
      · exact Or.inr (List.mem_cons.mpr (Or.inl h1))
      · exact Or.inr (List.mem_cons.mpr (Or.inr h1))
    · rw [if_neg h]
      rcases ih a with h1 | h1
      · exact Or.inl h1
      · exact Or.inr (List.mem_cons.mpr (Or.inr h1))

/-- The accumulator fold behind `max(scores, key=scores.get)`. -/
def foldPick (p : QueryIntent × ℕ) (l : List (QueryIntent × ℕ)) : QueryIntent × ℕ :=
  l.foldl (fun acc x => if x.2 > acc.2 then x else acc) p

theorem firstMaxKey_cons (p : QueryIntent × ℕ) (l : List (QueryIntent × ℕ)) :
    firstMaxKey (p :: l) = (foldPick p l).1 := rfl

theorem foldPick_snd : ∀ (l : List (QueryIntent × ℕ)) (p : QueryIntent × ℕ),
    (foldPick p l).2 = foldlMaxN p.2 (l.map Prod.snd) := by
  intro l
  induction l with
  | nil => intro p; rfl
  | cons x xs ih =>
    intro p
    unfold foldPick foldlMaxN
    simp only [List.foldl_cons, List.map_cons]
    by_cases h : x.2 > p.2
    · rw [if_pos h, if_pos h]
      exact ih x
    · rw [if_neg h, if_neg h]
      exact ih p

theorem foldPick_cases : ∀ (l : List (QueryIntent × ℕ)) (p : QueryIntent × ℕ),
    foldPick p l = p ∨
    ∃ pre post, l = pre ++ (foldPick p l) :: post ∧ p.2 < (foldPick p l).2 ∧
      ∀ x ∈ pre, x.2 < (foldPick p l).2 := by
  intro l
  induction l with
  | nil => intro p; exact Or.inl rfl
  | cons x xs ih =>
    intro p
    by_cases h : x.2 > p.2
    · have he : foldPick p (x :: xs) = foldPick x xs := by
        unfold foldPick
        simp only [List.foldl_cons, if_pos h]
      rcases ih x with h1 | ⟨pre, post, hsplit, hlt, hpre⟩
      · refine Or.inr ⟨[], xs, ?_, ?_, ?_⟩
        · rw [he, h1]; rfl
        · rw [he, h1]; exact h
        · intro y hy; cases hy
      · refine Or.inr ⟨x :: pre, post, ?_, ?_, ?_⟩
        · rw [he]
          rw [List.cons_append]
          exact congrArg (x :: ·) hsplit
        · rw [he]; exact lt_trans h hlt
        · intro y hy
          rcases List.mem_cons.mp hy with rfl | hy
          · rw [he]; exact hlt
          · rw [he]; exact hpre y hy
    · have he : foldPick p (x :: xs) = foldPick p xs := by
        unfold foldPick
        simp only [List.foldl_cons, if_neg h]
      rcases ih p with h1 | ⟨pre, post, hsplit, hlt, hpre⟩
      · exact Or.inl (by rw [he, h1])
      · refine Or.inr ⟨x :: pre, post, ?_, ?_, ?_⟩
        · rw [he]
          rw [List.cons_append]
          exact congrArg (x :: ·) hsplit
        · rw [he]; exact hlt
        · intro y hy
          rcases List.mem_cons.mp hy with rfl | hy
          · rw [he]; exact lt_of_le_of_lt (Nat.le_of_not_lt h) hlt
          · rw [he]; exact hpre y hy

theorem posOf_append_notmem {α : Type} [DecidableEq α] (x : α) :
    ∀ (l1 l2 : List α), x ∉ l1 → posOf x (l1 ++ l2) = l1.length + posOf x l2 := by
  intro l1
  induction l1 with
  | nil => intro l2 _; simp
  | cons y ys ih =>
    intro l2 hx
    have hy : y ≠ x := fun he => hx (he ▸ List.mem_cons_self y ys)
    have h1 : posOf x ((y :: ys) ++ l2) = posOf x (ys ++ l2) + 1 := by
      simp [posOf, hy]
    rw [h1, ih l2 (fun h => hx (List.mem_cons.mpr (Or.inr h)))]
    simp only [List.length_cons]
    omega

theorem posOf_get_self {α : Type} [DecidableEq α] :
    ∀ (l : List α) (x : α) (h : posOf x l < l.length), l.get ⟨posOf x l, h⟩ = x := by
  intro l
  induction l with
  | nil => intro x h; cases h
  | cons y ys ih =>
    intro x h
    by_cases hy : y = x
    · simp [posOf, hy]
    · have hp : posOf x (y :: ys) = posOf x ys + 1 := by simp [posOf, hy]
      have h2 : posOf x ys < ys.length := by
        rw [hp] at h
        exact Nat.lt_of_succ_lt_succ h
      have : (y :: ys).get ⟨posOf x ys + 1, by simpa using Nat.succ_lt_succ h2⟩ =
          ys.get ⟨posOf x ys, h2⟩ := rfl
      rw [show (⟨posOf x (y :: ys), h⟩ : Fin (y :: ys).length) =
        ⟨posOf x ys + 1, by simpa using Nat.succ_lt_succ h2⟩ from by simp [hp]]
      rw [this, ih x h2]

theorem posOf_lt_mem {α : Type} [DecidableEq α] :
    ∀ (l1 l2 : List α) (x : α), posOf x (l1 ++ l2) < l1.length → x ∈ l1 := by
  intro l1
  induction l1 with
  | nil => intro l2 x h; cases h
  | cons y ys ih =>
    intro l2 x h
    by_cases hy : y = x
    · exact hy ▸ List.mem_cons_self _ _
    · have hp : posOf x ((y :: ys) ++ l2) = posOf x (ys ++ l2) + 1 := by
        simp [posOf, hy]
      have h2 : posOf x (ys ++ l2) < ys.length := by
        rw [hp] at h
        simpa using Nat.lt_of_succ_lt_succ h
      exact List.mem_cons.mpr (Or.inr (ih l2 x h2))

/-- Components of `classifyIntent` written as an explicit `if`. -/
theorem classifyIntent_eq_ite (q : String) (ent : EntityMap) :
    classifyIntent q ent =
      if maxValues ((scoresList q ent).map Prod.snd) = 0 then
        (QueryIntent.GENERAL_QUESTION, (1 : ℚ) / 2)
      else (firstMaxKey (scoresList q ent),
        min ((maxValues ((scoresList q ent).map Prod.snd) : ℚ) / (totalPossible : ℚ)) 1) := rfl

/-- C3: intent classification scores each of the five intents by counting
trigger keywords contained in the normalized query plus the entity bonuses;
all-zero scores yield `general_question` with confidence exactly 1/2;
otherwise the chosen intent carries a maximal score, every intent strictly
earlier in table-declaration order scores strictly less (first max wins),
and the confidence is the best score over 51 — the sum of the keyword-table
sizes — clamped to 1.  In particular `classify("")` (no pattern matches, no
tagger) yields `general_question`, confidence 1/2, empty entities and
keywords. -/
theorem C3_classify_intent :
    (∀ (q : String) (ent : EntityMap),
      ((∀ i, specScore q ent i = 0) →
        classifyIntent q ent = (QueryIntent.GENERAL_QUESTION, (1 : ℚ) / 2)) ∧
      ((∃ i0, specScore q ent i0 ≠ 0) →
        (∀ j, specScore q ent j ≤ specScore q ent (classifyIntent q ent).1) ∧
        (∀ j, posOf j tableOrder < posOf (classifyIntent q ent).1 tableOrder →
          specScore q ent j < specScore q ent (classifyIntent q ent).1) ∧
        (classifyIntent q ent).2 =
          min ((specScore q ent (classifyIntent q ent).1 : ℚ) / 51) 1)) ∧
    (∀ (rq : RawMatches) (tag : String → Option TaggerOut),
      (∀ k, rq "" k = Except.ok []) → tag "" = none →
      processQuery rq tag "" =
        ⟨QueryIntent.GENERAL_QUESTION, [], (1 : ℚ) / 2, [], "", ""⟩) := by
  constructor
  · intro q ent
    have SL := scoresList_eq q ent
    have hl : scoresList q ent =
        (QueryIntent.INFORMATION_RETRIEVAL, specScore q ent QueryIntent.INFORMATION_RETRIEVAL) ::
        [(QueryIntent.DATA_DOWNLOAD, specScore q ent QueryIntent.DATA_DOWNLOAD),
         (QueryIntent.TECHNICAL_SUPPORT, specScore q ent QueryIntent.TECHNICAL_SUPPORT),
         (QueryIntent.GEOSPATIAL_QUERY, specScore q ent QueryIntent.GEOSPATIAL_QUERY),
         (QueryIntent.API_HELP, specScore q ent QueryIntent.API_HELP)] := by
      rw [SL]; rfl
    have hvals : (scoresList q ent).map Prod.snd =
        specScore q ent QueryIntent.INFORMATION_RETRIEVAL ::
        [specScore q ent QueryIntent.DATA_DOWNLOAD,
         specScore q ent QueryIntent.TECHNICAL_SUPPORT,
         specScore q ent QueryIntent.GEOSPATIAL_QUERY,
         specScore q ent QueryIntent.API_HELP] := by
      rw [hl]; rfl
    set p0 : QueryIntent × ℕ :=
      (QueryIntent.INFORMATION_RETRIEVAL, specScore q ent QueryIntent.INFORMATION_RETRIEVAL)
      with hp0
    set restL : List (QueryIntent × ℕ) :=
      [(QueryIntent.DATA_DOWNLOAD, specScore q ent QueryIntent.DATA_DOWNLOAD),
       (QueryIntent.TECHNICAL_SUPPORT, specScore q ent QueryIntent.TECHNICAL_SUPPORT),
       (QueryIntent.GEOSPATIAL_QUERY, specScore q ent QueryIntent.GEOSPATIAL_QUERY),
       (QueryIntent.API_HELP, specScore q ent QueryIntent.API_HELP)] with hrest
    set r : QueryIntent × ℕ := foldPick p0 restL with hrdef
    have hmv : maxValues ((scoresList q ent).map Prod.snd) = r.2 := by
      rw [hvals, maxValues_eq_foldlMaxN, foldlMaxN_cons_zero, hrdef, foldPick_snd]
      rfl
    have helem : ∀ x ∈ scoresList q ent, x.2 = specScore q ent x.1 := by
      rw [SL]
      intro x hx
      simp only [List.mem_map] at hx
      obtain ⟨i, _, rfl⟩ := hx
      rfl
    have hrmem : r ∈ scoresList q ent := by
      have hcs := foldPick_cases restL p0
      rw [← hrdef] at hcs
      rcases hcs with hc | ⟨pre, post, hsplit, -, -⟩
      · rw [hl, hc]; exact List.mem_cons_self _ _
      · rw [hl]
        refine List.mem_cons.mpr (Or.inr ?_)
        rw [hsplit]
        exact List.mem_append.mpr (Or.inr (List.mem_cons_self _ _))
    have hrb : r.2 = specScore q ent r.1 := helem r hrmem
    have hle : ∀ x ∈ scoresList q ent, x.2 ≤ r.2 := by
      intro x hx
      rw [← hmv, maxValues_eq_foldlMaxN]
      exact foldlMaxN_ge_mem _ 0 x.2 (List.mem_map_of_mem Prod.snd hx)
    have hjle : ∀ j : QueryIntent, specScore q ent j ≤ r.2 := by
      intro j
      have hres := specScore_residual q ent
      cases j with
      | GENERAL_QUESTION => rw [hres.1]; exact Nat.zero_le _
      | UNKNOWN => rw [hres.2]; exact Nat.zero_le _
      | INFORMATION_RETRIEVAL =>
        exact hle (QueryIntent.INFORMATION_RETRIEVAL,
          specScore q ent QueryIntent.INFORMATION_RETRIEVAL)
          (by rw [hl, hp0]; exact List.mem_cons_self _ _)
      | DATA_DOWNLOAD =>
        exact hle (QueryIntent.DATA_DOWNLOAD, specScore q ent QueryIntent.DATA_DOWNLOAD)
          (by rw [hl, hrest]; simp)
      | TECHNICAL_SUPPORT =>
        exact hle (QueryIntent.TECHNICAL_SUPPORT, specScore q ent QueryIntent.TECHNICAL_SUPPORT)
          (by rw [hl, hrest]; simp)
      | GEOSPATIAL_QUERY =>
        exact hle (QueryIntent.GEOSPATIAL_QUERY, specScore q ent QueryIntent.GEOSPATIAL_QUERY)
          (by rw [hl, hrest]; simp)
      | API_HELP =>
        exact hle (QueryIntent.API_HELP, specScore q ent QueryIntent.API_HELP)
          (by rw [hl, hrest]; simp)
    constructor
    · intro hz
      rw [classifyIntent_eq_ite, if_pos (by rw [hmv, hrb, hz r.1])]
    · rintro ⟨i0, hi0⟩
      have hmv0 : maxValues ((scoresList q ent).map Prod.snd) ≠ 0 := by
        have h1 : specScore q ent i0 ≤ r.2 := hjle i0
        rw [hmv]
        omega
      have h51 : totalPossible = 51 := by decide
      have hCI : classifyIntent q ent = (r.1, min ((r.2 : ℚ) / 51) 1) := by
        rw [classifyIntent_eq_ite, if_neg hmv0]
        have hfk : firstMaxKey (scoresList q ent) = r.1 := by
          rw [hl]; rfl
        rw [hfk, hmv, h51]
        norm_num
      refine ⟨?_, ?_, ?_⟩
      · intro j
        rw [hCI]
        exact le_trans (hjle j) (le_of_eq hrb)
      · intro j hj
        rw [hCI] at hj ⊢
        replace hj : posOf j tableOrder < posOf r.1 tableOrder := hj
        show specScore q ent j < specScore q ent r.1
        have hcs := foldPick_cases restL p0
        rw [← hrdef] at hcs
        rcases hcs with hc | ⟨pre, post, hsplit, hplt, hpre⟩
        · rw [hc] at hj
          replace hj : posOf j tableOrder <
            posOf QueryIntent.INFORMATION_RETRIEVAL tableOrder := hj
          rw [show posOf QueryIntent.INFORMATION_RETRIEVAL tableOrder = 0 from by decide] at hj
          exact absurd hj (Nat.not_lt_zero _)
        · have hll : scoresList q ent = (p0 :: pre) ++ r :: post := by
            rw [hl, hsplit]
            rfl
          have htabmap : tableOrder = (scoresList q ent).map Prod.fst := by
            rw [SL, List.map_map]
            simp [tableOrder]
          have htab2 : tableOrder =
              ((p0 :: pre).map Prod.fst) ++ r.1 :: (post.map Prod.fst) := by
            rw [htabmap, hll]
            simp
          have hnd : tableOrder.Nodup := by decide
          have hnd2 : (((p0 :: pre).map Prod.fst) ++ r.1 :: (post.map Prod.fst)).Nodup := by
            rw [← htab2]; exact hnd
          have hnotmem : r.1 ∉ (p0 :: pre).map Prod.fst := by
            intro hmem
            rcases List.nodup_append.mp hnd2 with ⟨-, -, hdisj⟩
            exact hdisj hmem (List.mem_cons_self _ _)
          have hposb : posOf r.1 tableOrder = ((p0 :: pre).map Prod.fst).length := by
            rw [htab2, posOf_append_notmem _ _ _ hnotmem]
            simp [posOf]
          have hjlt2 : posOf j tableOrder < ((p0 :: pre).map Prod.fst).length := by
            rw [← hposb]; exact hj
          have hjmem : j ∈ (p0 :: pre).map Prod.fst := by
            refine posOf_lt_mem _ (r.1 :: (post.map Prod.fst)) j ?_
            rw [← htab2]
            exact hjlt2
          simp only [List.mem_map] at hjmem
          obtain ⟨x, hx, hxj⟩ := hjmem
          have hxmem : x ∈ scoresList q ent := by
            rw [hll]
            exact List.mem_append.mpr (Or.inl hx)
          have hx2 : x.2 = specScore q ent x.1 := helem x hxmem
          rcases List.mem_cons.mp hx with rfl | hx
          · rw [← hxj, ← hx2, ← hrb, hp0]
            rw [hp0] at hplt
            exact hplt
          · rw [← hxj, ← hx2, ← hrb]
            exact hpre x hx
      · rw [hCI]
        show min ((r.2 : ℚ) / 51) 1 = min ((specScore q ent r.1 : ℚ) / 51) 1
        rw [hrb]
  · intro rq tag hrq htag
    have hpq : preprocess "" = "" := by decide
    have hsr : sequenceRaw (rq "") = Except.ok (fun k => match k with
        | QueryEntity.LOCATION => []
        | QueryEntity.SATELLITE => []
        | QueryEntity.SENSOR => []
        | QueryEntity.DATA_TYPE => []
        | QueryEntity.TIME_PERIOD => []
        | QueryEntity.RESOLUTION => []
        | QueryEntity.FILE_FORMAT => []
        | QueryEntity.API_ENDPOINT => []) := by
      unfold sequenceRaw
      rw [hrq QueryEntity.LOCATION, hrq QueryEntity.SATELLITE, hrq QueryEntity.SENSOR,
        hrq QueryEntity.DATA_TYPE, hrq QueryEntity.TIME_PERIOD, hrq QueryEntity.RESOLUTION,
        hrq QueryEntity.FILE_FORMAT, hrq QueryEntity.API_ENDPOINT]
      rfl
    have hpm : patternsMap (fun k => match k with
        | QueryEntity.LOCATION => []
        | QueryEntity.SATELLITE => []
        | QueryEntity.SENSOR => []
        | QueryEntity.DATA_TYPE => []
        | QueryEntity.TIME_PERIOD => []
        | QueryEntity.RESOLUTION => []
        | QueryEntity.FILE_FORMAT => []
        | QueryEntity.API_ENDPOINT => []) = [] := rfl
    have hci : classifyIntent "" [] = (QueryIntent.GENERAL_QUESTION, (1 : ℚ) / 2) := by
      rw [classifyIntent_eq_ite, if_pos (by decide)]
    have hkw : extractKeywords none "" = [] := by decide
    have hb : processBody rq tag "" =
        Except.ok ⟨QueryIntent.GENERAL_QUESTION, [], (1 : ℚ) / 2, [], "", ""⟩ := by
      unfold processBody
      rw [hpq]
      simp only [hsr, htag]
      rfl
    unfold processQuery
    rw [hb]

/-- C3 witness: the all-zero hypothesis discharged at the empty query, the
nonzero hypothesis at a download query, and the empty-query pipeline
hypotheses at a concrete regex engine and absent tagger. -/
theorem C3_classify_intent_witness :
    (∀ i, specScore "" [] i = 0) ∧
    classifyIntent "" [] = (QueryIntent.GENERAL_QUESTION, (1 : ℚ) / 2) ∧
    specScore "download the data file" [] QueryIntent.DATA_DOWNLOAD ≠ 0 ∧
    (∀ j, specScore "download the data file" [] j ≤
      specScore "download the data file" []
        (classifyIntent "download the data file" []).1) ∧
    processQuery (fun _ _ => Except.ok []) (fun _ => none) "" =
      ⟨QueryIntent.GENERAL_QUESTION, [], (1 : ℚ) / 2, [], "", ""⟩ := by
  refine ⟨?_, ?_, by decide, ?_, ?_⟩
  · intro i; cases i <;> decide
  · exact (C3_classify_intent.1 "" []).1 (by intro i; cases i <;> decide)
  · exact ((C3_classify_intent.1 "download the data file" []).2
      ⟨QueryIntent.DATA_DOWNLOAD, by decide⟩).1
  · exact C3_classify_intent.2 (fun _ _ => Except.ok []) (fun _ => none)
      (fun _ => rfl) rfl

/-! ### C4: entity extraction and merging -/

/-- Kind/string assignment of one spaCy named-entity span (the `ent.label_`
dispatch of `_extract_with_spacy`). -/
def entAssign (e : TagSpan) : Option (QueryEntity × String) :=
  if e.label = "GPE" then some (QueryEntity.LOCATION, e.text)
  else if e.label = "ORG" then some (QueryEntity.SATELLITE, e.text)
  else if e.label = "PRODUCT" then some (QueryEntity.DATA_TYPE, e.text)
  else none

/-- Kind/string assignment of one noun chunk (the substring dispatch of
`_extract_with_spacy`). -/
def chunkAssign (c : String) : Option (QueryEntity × String) :=
  if containsAnyOf (lowerStr c) ["satellite", "mission", "data"] then
    some (QueryEntity.SATELLITE, c)
  else if containsAnyOf (lowerStr c) ["sensor", "instrument"] then
    some (QueryEntity.SENSOR, c)
  else none

/-- Common shape of the two bucket-building loops. -/
def assignFold {β : Type} (assign : β → Option (QueryEntity × String))
    (l : List β) (m : EntityMap) : EntityMap :=
  l.foldl (fun acc x => match assign x with
    | some ks => dictAppend acc ks.1 ks.2
    | none => acc) m

/-- The candidate strings one loop contributes to kind `k`, in order. -/
def assignCands {β : Type} (assign : β → Option (QueryEntity × String))
    (l : List β) (k : QueryEntity) : List String :=
  l.filterMap (fun x => match assign x with
    | some ks => if ks.1 = k then some ks.2 else none
    | none => none)

/-- Tagger-based candidate strings for one kind: named-entity spans first,
then noun chunks, duplicates kept, in extraction order. -/
def taggerCandidatesSpec (t : TaggerOut) (k : QueryEntity) : List String :=
  assignCands entAssign t.ents k ++ assignCands chunkAssign t.nounChunks k

theorem spacyEntsFold_eq (ents : List TagSpan) (m : EntityMap) :
    spacyEntsFold ents m = assignFold entAssign ents m := by
  unfold spacyEntsFold assignFold
  congr 1
  funext acc e
  unfold entAssign
  by_cases h1 : e.label = "GPE"
  · simp [h1]
  · by_cases h2 : e.label = "ORG"
    · simp [h1, h2]
    · by_cases h3 : e.label = "PRODUCT"
      · simp [h1, h2, h3]
      · simp [h1, h2, h3]

theorem spacyChunksFold_eq (chunks : List String) (m : EntityMap) :
    spacyChunksFold chunks m = assignFold chunkAssign chunks m := by
  unfold spacyChunksFold assignFold
  congr 1
  funext acc c
  unfold chunkAssign
  by_cases h1 : containsAnyOf (lowerStr c) ["satellite", "mission", "data"] = true
  · simp [h1]
  · by_cases h2 : containsAnyOf (lowerStr c) ["sensor", "instrument"] = true
    · simp [h1, h2]
    · simp [h1, h2]

theorem dictAppend_lookup : ∀ (m : EntityMap) (k : QueryEntity) (s : String)
    (k' : QueryEntity),
    lookupKind (dictAppend m k s) k' =
      if k = k' then some (((lookupKind m k).getD []) ++ [s])
      else lookupKind m k' := by
  intro m
  induction m with
  | nil =>
    intro k s k'
    by_cases h : k = k' <;> simp [dictAppend, lookupKind, h]
  | cons p rest ih =>
    intro k s k'
    obtain ⟨k0, v⟩ := p
    by_cases h0 : k0 = k
    · subst h0
      by_cases h' : k0 = k' <;> simp [dictAppend, lookupKind, h', ih]
    · by_cases h' : k0 = k'
      · subst h'
        have hne : k ≠ k0 := fun h => h0 h.symm
        simp [dictAppend, lookupKind, h0, hne]
      · simp [dictAppend, lookupKind, h0, h', ih]

theorem dictSet_lookup : ∀ (m : EntityMap) (k : QueryEntity) (v : List String)
    (k' : QueryEntity),
    lookupKind (dictSet m k v) k' = if k = k' then some v else lookupKind m k' := by
  intro m
  induction m with
  | nil =>
    intro k v k'
    by_cases h : k = k' <;> simp [dictSet, lookupKind, h]
  | cons p rest ih =>
    intro k v k'
    obtain ⟨k0, w⟩ := p
    by_cases h0 : k0 = k
    · subst h0
      by_cases h' : k0 = k' <;> simp [dictSet, lookupKind, h', ih]
    · by_cases h' : k0 = k'
      · subst h'
        have hne : k ≠ k0 := fun h => h0 h.symm
        simp [dictSet, lookupKind, h0, hne]
      · simp [dictSet, lookupKind, h0, h', ih]

/-- Keys of an entity map, in insertion order. -/
def emKeys (m : EntityMap) : List QueryEntity := m.map Prod.fst

theorem lookupKind_mem_keys : ∀ (m : EntityMap) (k : QueryEntity) (w : List String),
    lookupKind m k = some w → k ∈ emKeys m := by
  intro m
  induction m with
  | nil => intro k w h; cases h
  | cons p rest ih =>
    intro k w h
    obtain ⟨k0, v⟩ := p
    by_cases h0 : k0 = k
    · exact h0 ▸ List.mem_cons.mpr (Or.inl rfl)
    · rw [show lookupKind ((k0, v) :: rest) k = lookupKind rest k from by
        simp [lookupKind, h0]] at h
      exact List.mem_cons.mpr (Or.inr (ih k w h))

theorem dictAppend_keys : ∀ (m : EntityMap) (k : QueryEntity) (s : String),
    emKeys (dictAppend m k s) =
      if k ∈ emKeys m then emKeys m else emKeys m ++ [k] := by
  intro m
  induction m with
  | nil => intro k s; simp [dictAppend, emKeys]
  | cons p rest ih =>
    intro k s
    obtain ⟨k0, v⟩ := p
    by_cases h0 : k0 = k
    · subst h0
      simp [dictAppend, emKeys]
    · have hke : k ≠ k0 := fun h => h0 h.symm
      have hda : dictAppend ((k0, v) :: rest) k s = (k0, v) :: dictAppend rest k s := by
        simp [dictAppend, h0]
      have hk1 : emKeys ((k0, v) :: dictAppend rest k s) =
          k0 :: emKeys (dictAppend rest k s) := rfl
      have hk2 : emKeys ((k0, v) :: rest) = k0 :: emKeys rest := rfl
      rw [hda, hk1, ih k s, hk2]
      by_cases h2 : k ∈ emKeys rest
      · rw [if_pos h2, if_pos (List.mem_cons.mpr (Or.inr h2))]
      · rw [if_neg h2, if_neg (by
          intro hm
          rcases List.mem_cons.mp hm with hm | hm
          · exact hke hm
          · exact h2 hm)]
        rfl

theorem dictAppend_keys_nodup (m : EntityMap) (k : QueryEntity) (s : String)
    (h : (emKeys m).Nodup) : (emKeys (dictAppend m k s)).Nodup := by
  rw [dictAppend_keys]
  by_cases hk : k ∈ emKeys m
  · rwa [if_pos hk]
  · rw [if_neg hk]
    refine List.nodup_append.mpr ⟨h, List.nodup_singleton k, ?_⟩
    intro a ha hb
    rw [List.mem_singleton] at hb
    exact hk (hb ▸ ha)

theorem assignFold_keys_nodup {β : Type} (assign : β → Option (QueryEntity × String)) :
    ∀ (l : List β) (m : EntityMap),
      (emKeys m).Nodup → (emKeys (assignFold assign l m)).Nodup := by
  intro l
  induction l with
  | nil => intro m h; exact h
  | cons x rest ih =>
    intro m h
    rcases ha : assign x with _ | ks
    · have h1 : assignFold assign (x :: rest) m = assignFold assign rest m := by
        unfold assignFold; simp [List.foldl_cons, ha]
      rw [h1]; exact ih m h
    · have h1 : assignFold assign (x :: rest) m =
          assignFold assign rest (dictAppend m ks.1 ks.2) := by
        unfold assignFold; simp [List.foldl_cons, ha]
      rw [h1]
      exact ih _ (dictAppend_keys_nodup m ks.1 ks.2 h)

theorem extractWithSpacy_keys_nodup (t : TaggerOut) :
    (emKeys (extractWithSpacy t)).Nodup := by
  unfold extractWithSpacy
  rw [spacyChunksFold_eq, spacyEntsFold_eq]
  exact assignFold_keys_nodup _ _ _
    (assignFold_keys_nodup _ _ _ (by simp [emKeys]))

theorem assignFold_lookup {β : Type} (assign : β → Option (QueryEntity × String)) :
    ∀ (l : List β) (m : EntityMap) (k : QueryEntity),
      lookupKind (assignFold assign l m) k =
        if assignCands assign l k = [] then lookupKind m k
        else some (((lookupKind m k).getD []) ++ assignCands assign l k) := by
  intro l
  induction l with
  | nil => intro m k; simp [assignFold, assignCands]
  | cons x rest ih =>
    intro m k
    rcases ha : assign x with _ | ks
    · have h1 : assignFold assign (x :: rest) m = assignFold assign rest m := by
        unfold assignFold; simp [List.foldl_cons, ha]
      have h2 : assignCands assign (x :: rest) k = assignCands assign rest k := by
        unfold assignCands; simp [List.filterMap_cons, ha]
      rw [h1, h2, ih]
    · obtain ⟨km, s⟩ := ks
      have h1 : assignFold assign (x :: rest) m =
          assignFold assign rest (dictAppend m km s) := by
        unfold assignFold; simp [List.foldl_cons, ha]
      by_cases hk : km = k
      · subst hk
        have h2 : assignCands assign (x :: rest) km = s :: assignCands assign rest km := by
          unfold assignCands; simp [List.filterMap_cons, ha]
        rw [h1, h2, ih]
        have h3 : lookupKind (dictAppend m km s) km =
            some (((lookupKind m km).getD []) ++ [s]) := by
          rw [dictAppend_lookup]; simp
        by_cases hz : assignCands assign rest km = []
        · simp [hz, h3]
        · simp [hz, h3]
      · have h2 : assignCands assign (x :: rest) k = assignCands assign rest k := by
          unfold assignCands; simp [List.filterMap_cons, ha, hk]
        have h3 : lookupKind (dictAppend m km s) k = lookupKind m k := by
          rw [dictAppend_lookup, if_neg hk]
        rw [h1, h2, ih, h3]

theorem dictUpdate_lookup : ∀ (m2 m1 : EntityMap) (k : QueryEntity),
    (emKeys m2).Nodup →
    lookupKind (dictUpdate m1 m2) k =
      match lookupKind m2 k with
      | some v => some v
      | none => lookupKind m1 k := by
  intro m2
  induction m2 with
  | nil => intro m1 k _; rfl
  | cons p rest ih =>
    intro m1 k hnd
    obtain ⟨k0, v⟩ := p
    have hkeys : emKeys ((k0, v) :: rest) = k0 :: emKeys rest := rfl
    rw [hkeys] at hnd
    have hnd' : (emKeys rest).Nodup := (List.nodup_cons.mp hnd).2
    have hk0 : k0 ∉ emKeys rest := (List.nodup_cons.mp hnd).1
    have h1 : dictUpdate m1 ((k0, v) :: rest) = dictUpdate (dictSet m1 k0 v) rest := by
      unfold dictUpdate; simp [List.foldl_cons]
    rw [h1, ih _ k hnd']
    by_cases hk : k0 = k
    · subst hk
      have hnone : lookupKind rest k0 = none := by
        rcases hr : lookupKind rest k0 with _ | w
        · rfl
        · exact absurd (lookupKind_mem_keys rest k0 w hr) hk0
      rw [hnone]
      simp [lookupKind, dictSet_lookup]
    · rcases hr : lookupKind rest k with _ | w <;>
        simp [lookupKind, hr, dictSet_lookup, hk]

theorem extractWithSpacy_lookup (t : TaggerOut) (k : QueryEntity) :
    lookupKind (extractWithSpacy t) k =
      if taggerCandidatesSpec t k = [] then none
      else some (taggerCandidatesSpec t k) := by
  unfold extractWithSpacy taggerCandidatesSpec
  rw [spacyChunksFold_eq, spacyEntsFold_eq, assignFold_lookup, assignFold_lookup]
  rcases h1 : assignCands entAssign t.ents k with _ | ⟨a, as⟩ <;>
    rcases h2 : assignCands chunkAssign t.nounChunks k with _ | ⟨b, bs⟩ <;>
      simp [lookupKind]

theorem lookupKind_append : ∀ (m1 m2 : EntityMap) (k : QueryEntity),
    lookupKind (m1 ++ m2) k =
      match lookupKind m1 k with
      | some v => some v
      | none => lookupKind m2 k := by
  intro m1
  induction m1 with
  | nil => intro m2 k; rfl
  | cons p rest ih =>
    intro m2 k
    obtain ⟨k0, v⟩ := p
    by_cases h0 : k0 = k <;> simp [lookupKind, h0, ih]

theorem addIfFound_lookup (k0 : QueryEntity) (v : List String) (m : EntityMap)
    (k : QueryEntity) :
    lookupKind (addIfFound k0 v m) k =
      match lookupKind m k with
      | some w => some w
      | none => if k0 = k ∧ v ≠ [] then some (pySetList v) else none := by
  unfold addIfFound
  by_cases hv : v = []
  · rw [if_pos hv]
    rcases h : lookupKind m k with _ | w <;> simp [h, hv]
  · rw [if_neg hv, lookupKind_append]
    rcases h : lookupKind m k with _ | w <;>
      by_cases hk : k0 = k <;> simp [h, hv, hk, lookupKind]

theorem patternsMap_lookup (rv : QueryEntity → List String) (k : QueryEntity) :
    lookupKind (patternsMap rv) k =
      if rv k = [] then none else some (pySetList (rv k)) := by
  cases k <;>
    simp [patternsMap, addIfFound_lookup, lookupKind] <;>
      split_ifs <;> simp_all

/-- C4 counterexample: with a pattern-based `delhi` and a tagger-based
`mumbai` both assigned to the location kind, `dict.update` makes the tagger
list replace the pattern list — the merged value is `[mumbai]`, not the
claimed duplicate-free concatenation `[delhi, mumbai]`. -/
theorem C4_cex :
    lookupKind (extractEntitiesPure
        (patternsMap (fun k => if k = QueryEntity.LOCATION then ["delhi"] else []))
        (some { ents := [⟨"GPE", "mumbai"⟩] })) QueryEntity.LOCATION ≠
      some (pySetList
        ((fun k : QueryEntity => if k = QueryEntity.LOCATION then ["delhi"] else [])
            QueryEntity.LOCATION ++
          taggerCandidatesSpec { ents := [⟨"GPE", "mumbai"⟩] } QueryEntity.LOCATION)) := by
  decide

/-- C4 (amended): `_extract_entities` combines the two sources by keywise
override, not by merging: for every kind the tagger assigns at least one
candidate to, the resulting value is exactly the tagger's candidate list
(duplicates kept, in extraction order), discarding the pattern-based
candidates; every other kind keeps the pattern-based candidates,
deduplicated through `list(set(...))` and present only when nonempty. -/
theorem C4_entity_override (rv : QueryEntity → List String)
    (tago : Option TaggerOut) (k : QueryEntity) :
    lookupKind (extractEntitiesPure (patternsMap rv) tago) k =
      (match tago with
       | none => if rv k = [] then none else some (pySetList (rv k))
       | some t =>
         if taggerCandidatesSpec t k = [] then
           (if rv k = [] then none else some (pySetList (rv k)))
         else some (taggerCandidatesSpec t k)) := by
  cases tago with
  | none => exact patternsMap_lookup rv k
  | some t =>
    show lookupKind (dictUpdate (patternsMap rv) (extractWithSpacy t)) k = _
    rw [dictUpdate_lookup _ _ _ (extractWithSpacy_keys_nodup t), extractWithSpacy_lookup]
    by_cases h : taggerCandidatesSpec t k = []
    · simp [h, patternsMap_lookup]
    · simp [h]

/-! ### C8: classification never propagates exceptions -/

theorem sequenceRaw_error (rq0 : QueryEntity → Except String (List String))
    (h : ∃ k e, rq0 k = Except.error e) :
    ∃ e0, sequenceRaw rq0 = Except.error e0 := by
  obtain ⟨k, e, hk⟩ := h
  rcases h1 : rq0 QueryEntity.LOCATION with e1 | v1
  · exact ⟨e1, by unfold sequenceRaw; rw [h1]; rfl⟩
  rcases h2 : rq0 QueryEntity.SATELLITE with e2 | v2
  · exact ⟨e2, by unfold sequenceRaw; rw [h1, h2]; rfl⟩
  rcases h3 : rq0 QueryEntity.SENSOR with e3 | v3
  · exact ⟨e3, by unfold sequenceRaw; rw [h1, h2, h3]; rfl⟩
  rcases h4 : rq0 QueryEntity.DATA_TYPE with e4 | v4
  · exact ⟨e4, by unfold sequenceRaw; rw [h1, h2, h3, h4]; rfl⟩
  rcases h5 : rq0 QueryEntity.TIME_PERIOD with e5 | v5
  · exact ⟨e5, by unfold sequenceRaw; rw [h1, h2, h3, h4, h5]; rfl⟩
  rcases h6 : rq0 QueryEntity.RESOLUTION with e6 | v6
  · exact ⟨e6, by unfold sequenceRaw; rw [h1, h2, h3, h4, h5, h6]; rfl⟩
  rcases h7 : rq0 QueryEntity.FILE_FORMAT with e7 | v7
  · exact ⟨e7, by unfold sequenceRaw; rw [h1, h2, h3, h4, h5, h6, h7]; rfl⟩
  rcases h8 : rq0 QueryEntity.API_ENDPOINT with e8 | v8
  · exact ⟨e8, by unfold sequenceRaw; rw [h1, h2, h3, h4, h5, h6, h7, h8]; rfl⟩
  exfalso
  cases k <;> simp_all

/-- C8: any internal error during query processing (modelled as a raising
regex pass — the one fallible step not wrapped by an inner handler) is
caught by `process_query`'s blanket handler, which returns intent
`unknown`, confidence 0, empty entities and keywords, and never
propagates. -/
theorem C8_catchall_default (rq : RawMatches) (tag : String → Option TaggerOut)
    (q : String) (h : ∃ k e, rq (preprocess q) k = Except.error e) :
    processQuery rq tag q = ⟨QueryIntent.UNKNOWN, [], 0, [], q, q⟩ := by
  obtain ⟨e0, hsr⟩ := sequenceRaw_error (rq (preprocess q)) h
  have hb : processBody rq tag q = Except.error e0 := by
    unfold processBody
    simp only [hsr]
    rfl
  unfold processQuery
  rw [hb]

/-- C8 witness: a regex engine that raises on every pass. -/
theorem C8_catchall_default_witness :
    (∃ k e, (fun (_ : String) (_ : QueryEntity) =>
        (Except.error "boom" : Except String (List String)))
      (preprocess "hi") k = Except.error e) ∧
    processQuery (fun _ _ => Except.error "boom") (fun _ => none) "hi" =
      ⟨QueryIntent.UNKNOWN, [], 0, [], "hi", "hi"⟩ :=
  ⟨⟨QueryEntity.LOCATION, "boom", rfl⟩,
   C8_catchall_default (fun _ _ => Except.error "boom") (fun _ => none) "hi"
     ⟨QueryEntity.LOCATION, "boom", rfl⟩⟩

/-! ### Graph mutation lemmas -/

/-- All node ids are below the uuid counter (freshness of the counter). -/
def freshFor (c : ℕ) (g : Graph) : Prop := ∀ id ∈ nodeIds g, id < c

theorem addNodeG_fresh (g : Graph) (id : ℕ) (a : Attrs) (h : id ∉ nodeIds g) :
    addNodeG g id a = { g with nodes := g.nodes ++ [(id, a)] } := by
  unfold addNodeG
  rw [if_neg h]

theorem ensureNode_mem (g : Graph) (id : ℕ) (h : id ∈ nodeIds g) :
    ensureNode g id = g := by
  unfold ensureNode
  rw [if_pos h]

theorem addEdgeG_mem (g : Graph) (u v : ℕ) (t : String)
    (hu : u ∈ nodeIds g) (hv : v ∈ nodeIds g) :
    addEdgeG g u v t = { g with edges := g.edges ++ [⟨u, v, t⟩] } := by
  unfold addEdgeG
  simp only [ensureNode_mem g u hu, ensureNode_mem g v hv]

theorem nodeIds_append (g : Graph) (l : List (ℕ × Attrs)) :
    nodeIds { g with nodes := g.nodes ++ l } = nodeIds g ++ l.map Prod.fst := by
  simp [nodeIds]

/-! ### C5: FAQ ingestion counts -/

/-- The nodes `_process_faq_content` appends: question/answer pairs at
consecutive counter values. -/
def faqNewNodes (provider : Provider) : ℕ → List FaqItem → List (ℕ × Attrs)
  | _, [] => []
  | c, f :: fs =>
    (c, questionAttrs provider f) :: (c + 1, answerAttrs provider f) ::
      faqNewNodes provider (c + 2) fs

/-- The edges `_process_faq_content` appends: a `contains` edge from the
content node to each question and a `has_answer` edge from each question to
its answer. -/
def faqNewEdges (cid : ℕ) : ℕ → List FaqItem → List GEdge
  | _, [] => []
  | c, _ :: fs =>
    ⟨cid, c, "contains"⟩ :: ⟨c, c + 1, "has_answer"⟩ :: faqNewEdges cid (c + 2) fs

theorem processFaqContent_char (provider : Provider) (cid : ℕ) :
    ∀ (faqs : List FaqItem) (g : Graph) (c : ℕ),
      freshFor c g → cid ∈ nodeIds g →
      processFaqContent provider cid faqs g c =
        ({ nodes := g.nodes ++ faqNewNodes provider c faqs,
           edges := g.edges ++ faqNewEdges cid c faqs }, c + 2 * faqs.length) := by
  intro faqs
  induction faqs with
  | nil =>
    intro g c _ _
    simp [processFaqContent, faqNewNodes, faqNewEdges]
  | cons f fs ih =>
    intro g c hf hcid
    have hq : c ∉ nodeIds g := fun h => absurd (hf c h) (lt_irrefl c)
    have h1 : addNodeG g c (questionAttrs provider f) =
        { g with nodes := g.nodes ++ [(c, questionAttrs provider f)] } :=
      addNodeG_fresh g c _ hq
    set g1 : Graph := { g with nodes := g.nodes ++ [(c, questionAttrs provider f)] }
      with hg1
    have hids1 : nodeIds g1 = nodeIds g ++ [c] := by
      rw [hg1, nodeIds_append]; rfl
    have ha : c + 1 ∉ nodeIds g1 := by
      rw [hids1]
      intro hm
      rcases List.mem_append.mp hm with hm | hm
      · exact absurd (hf _ hm) (by omega)
      · rw [List.mem_singleton] at hm; omega
    have h2 : addNodeG g1 (c + 1) (answerAttrs provider f) =
        { g1 with nodes := g1.nodes ++ [(c + 1, answerAttrs provider f)] } :=
      addNodeG_fresh g1 (c + 1) _ ha
    set g2 : Graph := { g1 with nodes := g1.nodes ++ [(c + 1, answerAttrs provider f)] }
      with hg2
    have hids2 : nodeIds g2 = nodeIds g ++ [c] ++ [c + 1] := by
      rw [hg2, nodeIds_append, hids1]; rfl
    have hcid2 : cid ∈ nodeIds g2 := by
      rw [hids2]
      exact List.mem_append.mpr (Or.inl (List.mem_append.mpr (Or.inl hcid)))
    have hc2 : c ∈ nodeIds g2 := by
      rw [hids2]
      exact List.mem_append.mpr (Or.inl (List.mem_append.mpr (Or.inr (List.mem_singleton.mpr rfl))))
    have hc12 : c + 1 ∈ nodeIds g2 := by
      rw [hids2]
      exact List.mem_append.mpr (Or.inr (List.mem_singleton.mpr rfl))
    have h3 : addEdgeG g2 cid c "contains" =
        { g2 with edges := g2.edges ++ [⟨cid, c, "contains"⟩] } :=
      addEdgeG_mem g2 cid c _ hcid2 hc2
    set g3 : Graph := { g2 with edges := g2.edges ++ [⟨cid, c, "contains"⟩] } with hg3
    have hids3 : nodeIds g3 = nodeIds g2 := rfl
    have h4 : addEdgeG g3 c (c + 1) "has_answer" =
        { g3 with edges := g3.edges ++ [⟨c, c + 1, "has_answer"⟩] } :=
      addEdgeG_mem g3 c (c + 1) _ (hids3 ▸ hc2) (hids3 ▸ hc12)
    set g4 : Graph := { g3 with edges := g3.edges ++ [⟨c, c + 1, "has_answer"⟩] } with hg4
    have hfresh4 : freshFor (c + 2) g4 := by
      intro id hm
      have : nodeIds g4 = nodeIds g ++ [c] ++ [c + 1] := hids2
      rw [this] at hm
      rcases List.mem_append.mp hm with hm | hm
      · rcases List.mem_append.mp hm with hm | hm
        · exact lt_trans (hf _ hm) (by omega)
        · rw [List.mem_singleton] at hm; omega
      · rw [List.mem_singleton] at hm; omega
    have hcid4 : cid ∈ nodeIds g4 := hcid2
    have hstep : processFaqContent provider cid (f :: fs) g c =
        processFaqContent provider cid fs
          (addEdgeG (addEdgeG (addNodeG (addNodeG g c (questionAttrs provider f))
            (c + 1) (answerAttrs provider f)) cid c "contains") c (c + 1) "has_answer")
          (c + 2) := rfl
    rw [hstep, h1, h2, h3, h4, ih g4 (c + 2) hfresh4 hcid4]
    have hn4 : g4.nodes = g.nodes ++ [(c, questionAttrs provider f),
        (c + 1, answerAttrs provider f)] := by
      rw [hg4, hg3, hg2, hg1]
      simp
    have he4 : g4.edges = g.edges ++ [⟨cid, c, "contains"⟩, ⟨c, c + 1, "has_answer"⟩] := by
      rw [hg4, hg3, hg2, hg1]
      simp
    rw [Prod.ext_iff]
    refine ⟨?_, ?_⟩
    · rw [Graph.mk.injEq]
      constructor
      · rw [hn4]
        show (g.nodes ++ _) ++ _ = g.nodes ++ faqNewNodes provider c (f :: fs)
        rw [List.append_assoc]
        rfl
      · rw [he4]
        show (g.edges ++ _) ++ _ = g.edges ++ faqNewEdges cid c (f :: fs)
        rw [List.append_assoc]
        rfl
    · show c + 2 + 2 * fs.length = c + 2 * (f :: fs).length
      simp [List.length_cons]
      ring

/-- Count of nodes of one `type` attribute value. -/
def countNodeType (g : Graph) (t : String) : ℕ :=
  (g.nodes.filter (fun p => p.2.type = some t)).length

/-- Count of edges of one `type` attribute value. -/
def countEdgeType (g : Graph) (t : String) : ℕ :=
  (g.edges.filter (fun e => e.etype = t)).length

theorem faqNewNodes_count_question (provider : Provider) :
    ∀ (c : ℕ) (faqs : List FaqItem),
      ((faqNewNodes provider c faqs).filter
        (fun p => p.2.type = some "question")).length = faqs.length := by
  intro c faqs
  induction faqs generalizing c with
  | nil => rfl
  | cons f fs ih =>
    simp [faqNewNodes, questionAttrs, answerAttrs, ih]

theorem faqNewNodes_count_answer (provider : Provider) :
    ∀ (c : ℕ) (faqs : List FaqItem),
      ((faqNewNodes provider c faqs).filter
        (fun p => p.2.type = some "answer")).length = faqs.length := by
  intro c faqs
  induction faqs generalizing c with
  | nil => rfl
  | cons f fs ih =>
    simp [faqNewNodes, questionAttrs, answerAttrs, ih]

theorem faqNewEdges_count_contains (cid : ℕ) :
    ∀ (c : ℕ) (faqs : List FaqItem),
      ((faqNewEdges cid c faqs).filter (fun e => e.etype = "contains")).length =
        faqs.length := by
  intro c faqs
  induction faqs generalizing c with
  | nil => rfl
  | cons f fs ih =>
    simp [faqNewEdges, ih]

theorem faqNewEdges_count_has_answer (cid : ℕ) :
    ∀ (c : ℕ) (faqs : List FaqItem),
      ((faqNewEdges cid c faqs).filter (fun e => e.etype = "has_answer")).length =
        faqs.length := by
  intro c faqs
  induction faqs generalizing c with
  | nil => rfl
  | cons f fs ih =>
    simp [faqNewEdges, ih]

/-- C5: ingesting a `faq` payload with N question/answer pairs adds exactly
N Question nodes, N Answer nodes, N `contains` edges and N `has_answer`
edges; the appended edge list shows each `contains` edge leaving the new
content node (the returned id) and each `has_answer` edge linking a
question id to its answer id, and the appended node list carries the
question/answer attribute records at exactly those ids. -/
theorem C5_faq_ingestion (provider : Provider) (p : Payload) (g : Graph) (c : ℕ)
    (hfresh : freshFor c g) (hct : p.content_type = some "faq") :
    countNodeType (addToLocalGraph provider p none g c).1 "question" =
      countNodeType g "question" + p.faqs.length ∧
    countNodeType (addToLocalGraph provider p none g c).1 "answer" =
      countNodeType g "answer" + p.faqs.length ∧
    countEdgeType (addToLocalGraph provider p none g c).1 "contains" =
      countEdgeType g "contains" + p.faqs.length ∧
    countEdgeType (addToLocalGraph provider p none g c).1 "has_answer" =
      countEdgeType g "has_answer" + p.faqs.length ∧
    (addToLocalGraph provider p none g c).1.edges =
      g.edges ++ faqNewEdges (addToLocalGraph provider p none g c).2.2 (c + 1) p.faqs ∧
    (addToLocalGraph provider p none g c).1.nodes =
      g.nodes ++ (c, contentAttrs p) :: faqNewNodes provider (c + 1) p.faqs := by
  have hc : c ∉ nodeIds g := fun h => absurd (hfresh c h) (lt_irrefl c)
  have h1 : addNodeG g c (contentAttrs p) =
      { g with nodes := g.nodes ++ [(c, contentAttrs p)] } :=
    addNodeG_fresh g c _ hc
  set g1 : Graph := { g with nodes := g.nodes ++ [(c, contentAttrs p)] } with hg1
  have hids1 : nodeIds g1 = nodeIds g ++ [c] := by
    rw [hg1, nodeIds_append]; rfl
  have hfresh1 : freshFor (c + 1) g1 := by
    intro id hm
    rw [hids1] at hm
    rcases List.mem_append.mp hm with hm | hm
    · exact lt_trans (hfresh _ hm) (by omega)
    · rw [List.mem_singleton] at hm; omega
  have hcmem : c ∈ nodeIds g1 := by
    rw [hids1]
    exact List.mem_append.mpr (Or.inr (List.mem_singleton.mpr rfl))
  have hred : addToLocalGraph provider p none g c =
      ((processFaqContent provider c p.faqs (addNodeG g c (contentAttrs p)) (c + 1)).1,
       (processFaqContent provider c p.faqs (addNodeG g c (contentAttrs p)) (c + 1)).2, c) := by
    simp only [addToLocalGraph, hct]
    rfl
  rw [hred, h1, processFaqContent_char provider c p.faqs g1 (c + 1) hfresh1 hcmem]
  have hn1 : g1.nodes = g.nodes ++ [(c, contentAttrs p)] := by rw [hg1]
  have he1 : g1.edges = g.edges := by rw [hg1]
  refine ⟨?_, ?_, ?_, ?_, ?_, ?_⟩
  · show ((g1.nodes ++ faqNewNodes provider (c + 1) p.faqs).filter
      (fun q => q.2.type = some "question")).length = _
    rw [List.filter_append, List.length_append, hn1, List.filter_append,
      List.length_append, faqNewNodes_count_question]
    simp [countNodeType, contentAttrs]
  · show ((g1.nodes ++ faqNewNodes provider (c + 1) p.faqs).filter
      (fun q => q.2.type = some "answer")).length = _
    rw [List.filter_append, List.length_append, hn1, List.filter_append,
      List.length_append, faqNewNodes_count_answer]
    simp [countNodeType, contentAttrs]
  · show ((g1.edges ++ faqNewEdges c (c + 1) p.faqs).filter
      (fun e => e.etype = "contains")).length = _
    rw [List.filter_append, List.length_append, he1, faqNewEdges_count_contains]
    rfl
  · show ((g1.edges ++ faqNewEdges c (c + 1) p.faqs).filter
      (fun e => e.etype = "has_answer")).length = _
    rw [List.filter_append, List.length_append, he1, faqNewEdges_count_has_answer]
    rfl
  · show g1.edges ++ faqNewEdges c (c + 1) p.faqs = g.edges ++ faqNewEdges c (c + 1) p.faqs
    rw [he1]
  · show g1.nodes ++ faqNewNodes provider (c + 1) p.faqs = _
    rw [hn1, List.append_assoc]
    rfl

/-- C5 witness: a two-pair FAQ payload against the empty graph. -/
theorem C5_faq_ingestion_witness :
    freshFor 0 {} ∧
    (⟨"", some "faq", [], "", [⟨"q1", "a1", "u"⟩, ⟨"q2", "a2", "u"⟩], none, [], none, none⟩ :
      Payload).content_type = some "faq" ∧
    countNodeType (addToLocalGraph none
      ⟨"", some "faq", [], "", [⟨"q1", "a1", "u"⟩, ⟨"q2", "a2", "u"⟩], none, [], none, none⟩
      none {} 0).1 "question" = countNodeType {} "question" + 2 := by
  refine ⟨fun id h => absurd h (List.not_mem_nil id), rfl, ?_⟩
  exact (C5_faq_ingestion none _ {} 0 (fun id h => absurd h (List.not_mem_nil id)) rfl).1

/-! ### C10: the two search modes draw from disjoint node populations -/

/-- Invariant of attribute records produced by ingestion: only Question and
Answer nodes can carry a truthy embedding, and Question/Answer nodes store
their text under `text`, never under `title` or `text_content`. -/
def GoodAttrs (a : Attrs) : Prop :=
  (truthyEmb a = true → a.type = some "question" ∨ a.type = some "answer") ∧
  ((a.type = some "question" ∨ a.type = some "answer") →
    a.title = none ∧ a.text_content = none)

/-- Every node of the graph satisfies the ingestion invariant. -/
def GoodGraph (g : Graph) : Prop := ∀ q ∈ g.nodes, GoodAttrs q.2

theorem GoodAttrs_plain (a : Attrs) (he : a.embedding = none)
    (ht : a.type ≠ some "question") (ht2 : a.type ≠ some "answer") :
    GoodAttrs a := by
  constructor
  · intro h
    simp [truthyEmb, he] at h
  · intro h
    rcases h with h | h
    · exact absurd h ht
    · exact absurd h ht2

theorem GoodAttrs_question (provider : Provider) (f : FaqItem) :
    GoodAttrs (questionAttrs provider f) :=
  ⟨fun _ => Or.inl rfl, fun _ => ⟨rfl, rfl⟩⟩

theorem GoodAttrs_answer (provider : Provider) (f : FaqItem) :
    GoodAttrs (answerAttrs provider f) :=
  ⟨fun _ => Or.inr rfl, fun _ => ⟨rfl, rfl⟩⟩

theorem GoodAttrs_content (p : Payload) : GoodAttrs (contentAttrs p) :=
  GoodAttrs_plain _ rfl (by simp [contentAttrs]) (by simp [contentAttrs])

theorem GoodGraph_ensure (g : Graph) (id : ℕ) (hg : GoodGraph g) :
    GoodGraph (ensureNode g id) := by
  unfold ensureNode
  by_cases h : id ∈ nodeIds g
  · rwa [if_pos h]
  · rw [if_neg h]
    intro q hq
    rcases List.mem_append.mp hq with hh | hh
    · exact hg q hh
    · rw [List.mem_singleton] at hh
      subst hh
      exact GoodAttrs_plain {} rfl (by simp) (by simp)

theorem GoodGraph_addEdge (g : Graph) (u v : ℕ) (t : String) (hg : GoodGraph g) :
    GoodGraph (addEdgeG g u v t) := by
  have h2 := GoodGraph_ensure (ensureNode g u) v (GoodGraph_ensure g u hg)
  intro q hq
  exact h2 q hq

/-- Bundled post-state invariant of one ingestion helper. -/
def InvStep (g : Graph) (c : ℕ) (r : Graph × ℕ) : Prop :=
  freshFor r.2 r.1 ∧ GoodGraph r.1 ∧ (∀ id ∈ nodeIds g, id ∈ nodeIds r.1) ∧ c ≤ r.2

theorem faqNewNodes_facts (provider : Provider) :
    ∀ (c : ℕ) (fs : List FaqItem) (q : ℕ × Attrs), q ∈ faqNewNodes provider c fs →
      c ≤ q.1 ∧ q.1 < c + 2 * fs.length ∧ GoodAttrs q.2 := by
  intro c fs
  induction fs generalizing c with
  | nil => intro q hq; cases hq
  | cons f rest ih =>
    intro q hq
    rcases List.mem_cons.mp hq with rfl | hq
    · exact ⟨le_refl _, by simp only [List.length_cons]; omega,
        GoodAttrs_question provider f⟩
    rcases List.mem_cons.mp hq with rfl | hq
    · exact ⟨by omega, by simp only [List.length_cons]; omega,
        GoodAttrs_answer provider f⟩
    · obtain ⟨h1, h2, h3⟩ := ih (c + 2) q hq
      exact ⟨by omega, by simp only [List.length_cons] at h2 ⊢; omega, h3⟩

theorem processFaqContent_inv (provider : Provider) (cid : ℕ) (faqs : List FaqItem)
    (g : Graph) (c : ℕ) (hf : freshFor c g) (hg : GoodGraph g)
    (hcid : cid ∈ nodeIds g) :
    InvStep g c (processFaqContent provider cid faqs g c) := by
  rw [processFaqContent_char provider cid faqs g c hf hcid]
  refine ⟨?_, ?_, ?_, ?_⟩
  · intro id hm
    replace hm : id ∈ (g.nodes ++ faqNewNodes provider c faqs).map Prod.fst := hm
    show id < c + 2 * faqs.length
    rw [List.map_append] at hm
    rcases List.mem_append.mp hm with hm | hm
    · exact lt_of_lt_of_le (hf id hm) (by omega)
    · simp only [List.mem_map] at hm
      obtain ⟨q, hq, rfl⟩ := hm
      exact (faqNewNodes_facts provider c faqs q hq).2.1
  · intro q hq
    replace hq : q ∈ g.nodes ++ faqNewNodes provider c faqs := hq
    rcases List.mem_append.mp hq with hq | hq
    · exact hg q hq
    · exact (faqNewNodes_facts provider c faqs q hq).2.2
  · intro id hm
    show id ∈ (g.nodes ++ faqNewNodes provider c faqs).map Prod.fst
    rw [List.map_append]
    exact List.mem_append.mpr (Or.inl hm)
  · show c ≤ c + 2 * faqs.length
    omega

theorem processLinks_inv (cid : ℕ) : ∀ (links : List LinkItem) (g : Graph) (c : ℕ),
    freshFor c g → GoodGraph g → cid ∈ nodeIds g →
    InvStep g c (processLinks cid links g c) := by
  intro links
  induction links with
  | nil =>
    intro g c hf hg _
    exact ⟨hf, hg, fun id h => h, le_refl c⟩
  | cons l rest ih =>
    intro g c hf hg hcid
    have hcn : c ∉ nodeIds g := fun h => absurd (hf c h) (lt_irrefl c)
    have h1 : addNodeG g c (linkAttrs l) =
        { g with nodes := g.nodes ++ [(c, linkAttrs l)] } := addNodeG_fresh _ _ _ hcn
    set g1 : Graph := { g with nodes := g.nodes ++ [(c, linkAttrs l)] } with hg1
    have hids1 : nodeIds g1 = nodeIds g ++ [c] := by rw [hg1, nodeIds_append]; rfl
    have hcmem1 : cid ∈ nodeIds g1 := by
      rw [hids1]; exact List.mem_append.mpr (Or.inl hcid)
    have hc1 : c ∈ nodeIds g1 := by
      rw [hids1]; exact List.mem_append.mpr (Or.inr (List.mem_singleton.mpr rfl))
    have h2 : addEdgeG g1 cid c "has_download" =
        { g1 with edges := g1.edges ++ [⟨cid, c, "has_download"⟩] } :=
      addEdgeG_mem g1 cid c _ hcmem1 hc1
    set g2 : Graph := { g1 with edges := g1.edges ++ [⟨cid, c, "has_download"⟩] } with hg2
    have hids2 : nodeIds g2 = nodeIds g1 := rfl
    have hf2 : freshFor (c + 1) g2 := by
      intro id hm
      rw [hids2, hids1] at hm
      rcases List.mem_append.mp hm with hm | hm
      · exact lt_trans (hf _ hm) (by omega)
      · rw [List.mem_singleton] at hm; omega
    have hg2good : GoodGraph g2 := by
      intro q hq
      have hq1 : q ∈ g1.nodes := hq
      rw [hg1] at hq1
      rcases List.mem_append.mp hq1 with hh | hh
      · exact hg q hh
      · rw [List.mem_singleton] at hh
        subst hh
        exact GoodAttrs_plain _ rfl (by simp [linkAttrs]) (by simp [linkAttrs])
    have hstep : processLinks cid (l :: rest) g c =
        processLinks cid rest (addEdgeG (addNodeG g c (linkAttrs l)) cid c "has_download")
          (c + 1) := rfl
    rw [hstep, h1, h2]
    obtain ⟨i1, i2, i3, i4⟩ := ih g2 (c + 1) hf2 hg2good (hids2 ▸ hcmem1)
    refine ⟨i1, i2, ?_, by omega⟩
    intro id hm
    refine i3 id ?_
    rw [hids2, hids1]
    exact List.mem_append.mpr (Or.inl hm)

/-- One "fresh node plus edge from the content node" step, shared by the
data/api derivations. -/
theorem addNodeEdge_step (g : Graph) (c cid : ℕ) (a : Attrs) (t : String)
    (hf : freshFor c g) (hg : GoodGraph g) (hcid : cid ∈ nodeIds g)
    (ha : GoodAttrs a) :
    ∃ g2 : Graph,
      addEdgeG (addNodeG g c a) cid c t = g2 ∧
      g2.nodes = g.nodes ++ [(c, a)] ∧
      freshFor (c + 1) g2 ∧ GoodGraph g2 ∧ cid ∈ nodeIds g2 ∧
      (∀ id ∈ nodeIds g, id ∈ nodeIds g2) := by
  have hcn : c ∉ nodeIds g := fun h => absurd (hf c h) (lt_irrefl c)
  have h1 : addNodeG g c a = { g with nodes := g.nodes ++ [(c, a)] } :=
    addNodeG_fresh _ _ _ hcn
  have hids1 : nodeIds { g with nodes := g.nodes ++ [(c, a)] } = nodeIds g ++ [c] := by
    rw [nodeIds_append]; rfl
  have hcid1 : cid ∈ nodeIds { g with nodes := g.nodes ++ [(c, a)] } := by
    rw [hids1]; exact List.mem_append.mpr (Or.inl hcid)
  have hc1 : c ∈ nodeIds { g with nodes := g.nodes ++ [(c, a)] } := by
    rw [hids1]; exact List.mem_append.mpr (Or.inr (List.mem_singleton.mpr rfl))
  have h2 : addEdgeG { g with nodes := g.nodes ++ [(c, a)] } cid c t =
      { nodes := g.nodes ++ [(c, a)], edges := g.edges ++ [⟨cid, c, t⟩] } :=
    addEdgeG_mem _ cid c t hcid1 hc1
  have hidsf : nodeIds ({ nodes := g.nodes ++ [(c, a)],
                          edges := g.edges ++ [⟨cid, c, t⟩] } : Graph) = nodeIds g ++ [c] := by
    show (g.nodes ++ [(c, a)]).map Prod.fst = _
    rw [List.map_append]; rfl
  refine ⟨{ nodes := g.nodes ++ [(c, a)], edges := g.edges ++ [⟨cid, c, t⟩] },
    by rw [h1, h2], rfl, ?_, ?_, ?_, ?_⟩
  · intro id hm
    rw [hidsf] at hm
    rcases List.mem_append.mp hm with hm | hm
    · exact lt_trans (hf id hm) (by omega)
    · rw [List.mem_singleton] at hm; omega
  · intro p hp
    replace hp : p ∈ g.nodes ++ [(c, a)] := hp
    rcases List.mem_append.mp hp with hp | hp
    · exact hg p hp
    · rw [List.mem_singleton] at hp; subst hp; exact ha
  · rw [hidsf]; exact List.mem_append.mpr (Or.inl hcid)
  · intro id hm
    rw [hidsf]; exact List.mem_append.mpr (Or.inl hm)

theorem processDataContent_inv (cid : ℕ) (p : Payload) (g : Graph) (c : ℕ)
    (hf : freshFor c g) (hg : GoodGraph g) (hcid : cid ∈ nodeIds g) :
    InvStep g c (processDataContent cid p g c) := by
  unfold processDataContent
  rcases hs : p.specifications with _ | sp
  · exact processLinks_inv cid p.download_links g c hf hg hcid
  · obtain ⟨g2, heq, -, hf2, hg2, hcid2, hsub2⟩ := addNodeEdge_step g c cid (specAttrs sp)
      "has_specifications" hf hg hcid
      (GoodAttrs_plain _ rfl (by simp [specAttrs]) (by simp [specAttrs]))
    show InvStep g c (processLinks cid p.download_links
      (addEdgeG (addNodeG g c (specAttrs sp)) cid c "has_specifications") (c + 1))
    rw [heq]
    obtain ⟨i1, i2, i3, i4⟩ := processLinks_inv cid p.download_links g2 (c + 1) hf2 hg2 hcid2
    exact ⟨i1, i2, fun id hm => i3 id (hsub2 id hm), by omega⟩

theorem processApiContent_inv (cid : ℕ) (p : Payload) (g : Graph) (c : ℕ)
    (hf : freshFor c g) (hg : GoodGraph g) (hcid : cid ∈ nodeIds g) :
    InvStep g c (processApiContent cid p g c) := by
  unfold processApiContent
  rcases hd : p.api_documentation with _ | d <;>
    rcases he : p.api_code_examples with _ | e
  · exact ⟨hf, hg, fun id h => h, le_refl c⟩
  · obtain ⟨g2, heq, -, hf2, hg2, hcid2, hsub2⟩ := addNodeEdge_step g c cid (codeAttrs e)
      "has_example" hf hg hcid
      (GoodAttrs_plain _ rfl (by simp [codeAttrs]) (by simp [codeAttrs]))
    show InvStep g c
      (addEdgeG (addNodeG g c (codeAttrs e)) cid c "has_example", c + 1)
    rw [heq]
    exact ⟨hf2, hg2, hsub2, by omega⟩
  · obtain ⟨g2, heq, -, hf2, hg2, hcid2, hsub2⟩ := addNodeEdge_step g c cid (apiDocAttrs d)
      "has_documentation" hf hg hcid
      (GoodAttrs_plain _ rfl (by simp [apiDocAttrs]) (by simp [apiDocAttrs]))
    show InvStep g c
      (addEdgeG (addNodeG g c (apiDocAttrs d)) cid c "has_documentation", c + 1)
    rw [heq]
    exact ⟨hf2, hg2, hsub2, by omega⟩
  · obtain ⟨g2, heq, -, hf2, hg2, hcid2, hsub2⟩ := addNodeEdge_step g c cid (apiDocAttrs d)
      "has_documentation" hf hg hcid
      (GoodAttrs_plain _ rfl (by simp [apiDocAttrs]) (by simp [apiDocAttrs]))
    show InvStep g c
      (addEdgeG (addNodeG (addEdgeG (addNodeG g c (apiDocAttrs d)) cid c
        "has_documentation") (c + 1) (codeAttrs e)) cid (c + 1) "has_example", c + 1 + 1)
    rw [heq]
    obtain ⟨g3, heq2, -, hf3, hg3, hcid3, hsub3⟩ := addNodeEdge_step g2 (c + 1) cid
      (codeAttrs e) "has_example" hf2 hg2 hcid2
      (GoodAttrs_plain _ rfl (by simp [codeAttrs]) (by simp [codeAttrs]))
    rw [heq2]
    exact ⟨hf3, hg3, fun id hm => hsub3 id (hsub2 id hm), by omega⟩

theorem addToLocalGraph_inv (provider : Provider) (p : Payload) (g : Graph) (c : ℕ)
    (hf : freshFor c g) (hg : GoodGraph g) :
    freshFor (addToLocalGraph provider p none g c).2.1
      (addToLocalGraph provider p none g c).1 ∧
    GoodGraph (addToLocalGraph provider p none g c).1 := by
  have hcn : c ∉ nodeIds g := fun h => absurd (hf c h) (lt_irrefl c)
  have h1 : addNodeG g c (contentAttrs p) =
      { g with nodes := g.nodes ++ [(c, contentAttrs p)] } := addNodeG_fresh _ _ _ hcn
  set g1 : Graph := { g with nodes := g.nodes ++ [(c, contentAttrs p)] } with hg1
  have hids1 : nodeIds g1 = nodeIds g ++ [c] := by rw [hg1, nodeIds_append]; rfl
  have hf1 : freshFor (c + 1) g1 := by
    intro id hm
    rw [hids1] at hm
    rcases List.mem_append.mp hm with hm | hm
    · exact lt_trans (hf id hm) (by omega)
    · rw [List.mem_singleton] at hm; omega
  have hg1good : GoodGraph g1 := by
    intro q hq
    have hq1 : q ∈ g.nodes ++ [(c, contentAttrs p)] := by
      rw [hg1] at hq; exact hq
    rcases List.mem_append.mp hq1 with hh | hh
    · exact hg q hh
    · rw [List.mem_singleton] at hh; subst hh; exact GoodAttrs_content p
  have hcmem : c ∈ nodeIds g1 := by
    rw [hids1]; exact List.mem_append.mpr (Or.inr (List.mem_singleton.mpr rfl))
  by_cases hfaq : p.content_type = some "faq"
  · have hred : addToLocalGraph provider p none g c =
        ((processFaqContent provider c p.faqs (addNodeG g c (contentAttrs p)) (c + 1)).1,
         (processFaqContent provider c p.faqs (addNodeG g c (contentAttrs p)) (c + 1)).2,
         c) := by
      simp only [addToLocalGraph, hfaq]
      rfl
    rw [hred, h1]
    obtain ⟨i1, i2, -, -⟩ := processFaqContent_inv provider c p.faqs g1 (c + 1) hf1 hg1good hcmem
    exact ⟨i1, i2⟩
  · by_cases hdata : p.content_type = some "data"
    · have hred : addToLocalGraph provider p none g c =
          ((processDataContent c p (addNodeG g c (contentAttrs p)) (c + 1)).1,
           (processDataContent c p (addNodeG g c (contentAttrs p)) (c + 1)).2, c) := by
        simp only [addToLocalGraph, hdata]
        rfl
      rw [hred, h1]
      obtain ⟨i1, i2, -, -⟩ := processDataContent_inv c p g1 (c + 1) hf1 hg1good hcmem
      exact ⟨i1, i2⟩
    · by_cases hapi : p.content_type = some "api"
      · have hred : addToLocalGraph provider p none g c =
            ((processApiContent c p (addNodeG g c (contentAttrs p)) (c + 1)).1,
             (processApiContent c p (addNodeG g c (contentAttrs p)) (c + 1)).2, c) := by
          simp only [addToLocalGraph, hapi, if_neg hfaq, if_neg hdata]
          rfl
        rw [hred, h1]
        obtain ⟨i1, i2, -, -⟩ := processApiContent_inv c p g1 (c + 1) hf1 hg1good hcmem
        exact ⟨i1, i2⟩
      · have hred : addToLocalGraph provider p none g c =
            (addNodeG g c (contentAttrs p), c + 1, c) := by
          simp only [addToLocalGraph, if_neg hfaq, if_neg hdata, if_neg hapi]
        rw [hred, h1]
        exact ⟨hf1, hg1good⟩

theorem buildGraph_inv (provider : Provider) (ps : List Payload) :
    freshFor (buildGraph provider ps).2 (buildGraph provider ps).1 ∧
    GoodGraph (buildGraph provider ps).1 := by
  have haux : ∀ (l : List Payload) (g : Graph) (c : ℕ), freshFor c g → GoodGraph g →
      freshFor (l.foldl (fun gc p =>
          let r := addToLocalGraph provider p none gc.1 gc.2
          (r.1, r.2.1)) (g, c)).2
        (l.foldl (fun gc p =>
          let r := addToLocalGraph provider p none gc.1 gc.2
          (r.1, r.2.1)) (g, c)).1 ∧
      GoodGraph (l.foldl (fun gc p =>
          let r := addToLocalGraph provider p none gc.1 gc.2
          (r.1, r.2.1)) (g, c)).1 := by
    intro l
    induction l with
    | nil => intro g c hf hg; exact ⟨hf, hg⟩
    | cons p rest ih =>
      intro g c hf hg
      simp only [List.foldl_cons]
      obtain ⟨hf', hg'⟩ := addToLocalGraph_inv provider p g c hf hg
      exact ih _ _ hf' hg'
  exact haux ps {} 0 (fun id h => absurd h (List.not_mem_nil id))
    (fun q h => absurd h (List.not_mem_nil q))

theorem semScore_truthy (sim : List ℚ → List ℚ → ℚ) (qe : List ℚ) (a : Attrs)
    (s : ℚ) (h : semScore sim qe a = some s) : truthyEmb a = true := by
  unfold semScore at h
  rcases he : a.embedding with _ | v
  · rw [he] at h; cases h
  rcases v with _ | l
  · rw [he] at h; cases h
  rcases l with _ | ⟨x, xs⟩
  · rw [he] at h
    simp at h
  · simp [truthyEmb, he]

theorem lexScore_of_none (ql : String) (a : Attrs) (h1 : a.title = none)
    (h2 : a.text_content = none) : lexScore ql a = 0 := by
  simp [lexScore, h1, h2]

/-- C10: over any graph built by ingestion, the two search modes draw from
disjoint node populations — every embedding-mode result carries a truthy
embedding attribute and is a Question or Answer node (only FAQ derivation
attaches embeddings), while no Question or Answer node can ever appear in
a lexical-fallback result (their text lives under `text`, not `title` or
`text_content`, so they score zero). -/
theorem C10_disjoint_populations (provider : Provider) (ps : List Payload)
    (sim : List ℚ → List ℚ → ℚ) (q : String) (limit : ℕ) :
    (∀ (e : String → Option (List ℚ)) (qe : List ℚ), e q = some qe →
      ∀ r ∈ searchContent (buildGraph provider ps).1 (some e) sim q limit,
        truthyEmb r.data = true ∧
        (r.data.type = some "question" ∨ r.data.type = some "answer")) ∧
    (∀ r ∈ textSearch (buildGraph provider ps).1 q limit,
      r.data.type ≠ some "question" ∧ r.data.type ≠ some "answer") := by
  obtain ⟨-, hgood⟩ := buildGraph_inv provider ps
  constructor
  · intro e qe he r hr
    have hred : searchContent (buildGraph provider ps).1 (some e) sim q limit =
        rankTrim (candList (buildGraph provider ps).1 (semScore sim qe)) limit := by
      simp only [searchContent, he]
    rw [hred] at hr
    obtain ⟨i, hi⟩ := rankTrim_mem _ limit r hr
    obtain ⟨h, -, hdata, hfs⟩ := candList_mem _ _ (i, r) hi
    have hdata2 : ((buildGraph provider ps).1.nodes.get ⟨i, h⟩).2 = r.data := hdata
    have hfs2 : semScore sim qe r.data = some r.similarity := hfs
    have htruthy := semScore_truthy sim qe r.data r.similarity hfs2
    have hGA : GoodAttrs r.data := by
      have hh := hgood _ (List.get_mem _ i h)
      rwa [hdata2] at hh
    exact ⟨htruthy, hGA.1 htruthy⟩
  · intro r hr
    obtain ⟨i, hi⟩ := rankTrim_mem _ limit r hr
    obtain ⟨h, -, hdata, hfs⟩ := candList_mem _ _ (i, r) hi
    have hdata2 : ((buildGraph provider ps).1.nodes.get ⟨i, h⟩).2 = r.data := hdata
    have hfs2 : lexScoreOpt (lowerStr q) r.data = some r.similarity := hfs
    have hGA : GoodAttrs r.data := by
      have hh := hgood _ (List.get_mem _ i h)
      rwa [hdata2] at hh
    have habs : ∀ ht : r.data.type = some "question" ∨ r.data.type = some "answer",
        False := by
      intro ht
      have hz := hGA.2 ht
      have h0 : lexScore (lowerStr q) r.data = 0 := lexScore_of_none _ _ hz.1 hz.2
      unfold lexScoreOpt at hfs2
      rw [h0] at hfs2
      simp at hfs2
    exact ⟨fun ht => habs (Or.inl ht), fun ht => habs (Or.inr ht)⟩

/-- Concrete Question-node attributes of the one-FAQ ingestion example. -/
def c10QAttrs : Attrs :=
  { type := some "question", text := some "q1", source_url := some "u",
    embedding := some (some [(1 : ℚ)]) }

/-- Concrete Answer-node attributes of the one-FAQ ingestion example (empty
answer text, so `_get_embedding` returns `None`). -/
def c10AAttrs : Attrs :=
  { type := some "answer", text := some "", source_url := some "u", embedding := some none }

/-- Concrete one-FAQ payload of the ingestion example. -/
def c10Payload : Payload := { content_type := some "faq", faqs := [⟨"q1", "", "u"⟩] }

/-- Witness for C10 on a concrete one-FAQ ingestion: the embedding pass over
the built graph returns exactly the Question node, which carries a truthy
embedding attribute. -/
theorem C10_disjoint_populations_witness :
    (fun _ : String => some [(1 : ℚ)]) "x" = some [(1 : ℚ)] ∧
    (⟨1, 1, c10QAttrs⟩ : SearchResult) ∈
      searchContent (buildGraph (some (fun _ : String => some [(1 : ℚ)])) [c10Payload]).1
        (some (fun _ : String => some [(1 : ℚ)])) (fun _ _ : List ℚ => (1 : ℚ)) "x" 10 ∧
    (truthyEmb c10QAttrs = true ∧
     (c10QAttrs.type = some "question" ∨ c10QAttrs.type = some "answer")) := by
  have hgt : (1 : ℚ) > relevanceThreshold := by norm_num [relevanceThreshold]
  have hG : (buildGraph (some (fun _ : String => some [(1 : ℚ)])) [c10Payload]).1 =
      { nodes := [(0, contentAttrs c10Payload), (1, c10QAttrs), (2, c10AAttrs)],
        edges := [⟨0, 1, "contains"⟩, ⟨1, 2, "has_answer"⟩] } := rfl
  have hcand : candList (buildGraph (some (fun _ : String => some [(1 : ℚ)])) [c10Payload]).1
      (semScore (fun _ _ : List ℚ => (1 : ℚ)) [(1 : ℚ)]) = [(1, ⟨1, 1, c10QAttrs⟩)] := by
    rw [hG]
    simp [candList, idxList, semScore, contentAttrs, c10Payload, c10QAttrs, c10AAttrs, hgt]
  have hmem : (⟨1, 1, c10QAttrs⟩ : SearchResult) ∈
      searchContent (buildGraph (some (fun _ : String => some [(1 : ℚ)])) [c10Payload]).1
        (some (fun _ : String => some [(1 : ℚ)])) (fun _ _ : List ℚ => (1 : ℚ)) "x" 10 := by
    show (⟨1, 1, c10QAttrs⟩ : SearchResult) ∈
      rankTrim (candList (buildGraph (some (fun _ : String => some [(1 : ℚ)])) [c10Payload]).1
        (semScore (fun _ _ : List ℚ => (1 : ℚ)) [(1 : ℚ)])) 10
    rw [hcand]
    exact List.mem_singleton.mpr rfl
  refine ⟨rfl, hmem, ?_⟩
  exact (C10_disjoint_populations (some (fun _ : String => some [(1 : ℚ)])) [c10Payload]
      (fun _ _ : List ℚ => (1 : ℚ)) "x" 10).1 (fun _ : String => some [(1 : ℚ)])
      [(1 : ℚ)] rfl _ hmem
